import Mathlib

set_option maxHeartbeats 1000000

/-!
Shallow embedding of `app/mcp_manager.py`: the MCP connection manager
(server registry, lazy connect, per-server lock, bounded retry loop).

The opaque parts of the environment (whether the transport import or SSE
connect succeeds, and the outcome of each remote tool invocation) are
supplied by oracles; every branch and state mutation follows the source.
Each run additionally produces a trace of observable events
(connect attempts, lock acquire and release, transport invocation start
and end, backoff sleeps) used to state the temporal claims.
-/

/-- Configuration for a single MCP server (class `MCPServerConfig`,
mcp_manager.py lines 17-24, with the source defaults). -/
structure MCPServerConfig where
  name : String
  url : String
  auth_token : Option String := none
  timeout : Nat := 30
  enabled : Bool := true
  deriving DecidableEq, Repr

/-- Entry stored in `MCPManager.servers` by `_connect_server`
(the dict literal at lines 133-138: config, url, headers, connected flag). -/
structure ServerEntry where
  config : MCPServerConfig
  url : String
  headers : Option String
  connected : Bool
  deriving DecidableEq, Repr

/-- State of an `MCPManager` instance: the three mutable collections from
`__init__` (lines 52-56). The per-server locks are modelled by the trace
events, and `_retry_delays` is the constant `retry_delays` below. -/
structure MCPManager where
  server_configs : List (String × MCPServerConfig)
  servers : List (String × ServerEntry)
  pending_connections : List String
  deriving DecidableEq, Repr

/-- The fixed backoff schedule `self._retry_delays = [1, 2, 5, 10]`
(line 57); no code ever mutates it, so it is a process-wide constant. -/
def retry_delays : List Nat := [1, 2, 5, 10]

/-- Lookup in a Python dict modelled as an association list. -/
def alookup {α : Type} : List (String × α) → String → Option α
  | [], _ => none
  | (k, v) :: tl, key => if k = key then some v else alookup tl key

/-- Python dict assignment `d[k] = v` (replaces any previous binding). -/
def dictInsert {α : Type} (l : List (String × α)) (k : String) (v : α) :
    List (String × α) :=
  (k, v) :: l.filter (fun p => p.1 ≠ k)

/-- Python dict deletion `del d[k]`. -/
def dictDelete {α : Type} (l : List (String × α)) (k : String) :
    List (String × α) :=
  l.filter (fun p => p.1 ≠ k)

/-- Python set add `s.add(k)`. -/
def pendingAdd (l : List String) (k : String) : List String :=
  if k ∈ l then l else k :: l

/-- Python set discard `s.discard(k)`. -/
def pendingDiscard (l : List String) (k : String) : List String :=
  l.filter (fun s => s ≠ k)

/-- Errors a manager operation can surface, one constructor per raise site
of the source; the spec taxonomy maps onto them as follows:
`UnknownServerError` = `notConfigured` (line 173, ValueError),
`DisabledServerError` = `disabled` (line 177, ValueError),
`ServerUnavailableError` = `cannotConnect` (line 185) / `notConnected`
(line 191) / `connectionFailed` (line 235), all ConnectionError,
`ToolTimeoutError` = `timedOut` (line 215, TimeoutError),
a generic transport error re-raised as-is = `other` (line 244),
`mcpConnectionFailed` = the ConnectionError raised inside
`_connect_server` (line 145), and `keyError` = the KeyError a missing
config key would raise at line 109. -/
inductive CallError where
  | notConfigured (server : String)
  | disabled (server : String)
  | cannotConnect (server : String)
  | notConnected (server : String)
  | mcpConnectionFailed (server : String)
  | keyError (server : String)
  | timedOut (server tool : String)
  | connectionFailed (server : String)
  | other (exc : Nat)
  deriving DecidableEq, Repr

/-- Observable events of a run: transport connect attempts, lock acquire and
release on the per-server `asyncio.Lock`, the start and end of one
`_execute_tool` invocation, and backoff sleeps. -/
inductive Ev where
  | connectAttempt (server : String)
  | acquire (server : String)
  | release (server : String)
  | execStart (server tool : String)
  | execEnd (server tool : String)
  | sleep (d : Nat)
  deriving DecidableEq, Repr

/-- Result dict returned by `_execute_tool` on success (lines 290-294). -/
structure ToolResult where
  status : String
  tool : String
  server : String
  deriving DecidableEq, Repr

/-- Outcome of one invocation of the opaque remote call inside
`_execute_tool`, as classified by the except clauses of the retry loop:
success, `asyncio.TimeoutError`, `ConnectionError`, or any other
exception (carried as an opaque code). -/
inductive ExecOutcome where
  | ok
  | timeout
  | connError
  | otherFailure (exc : Nat)
  deriving DecidableEq, Repr

/-- Environment oracle for one `call_tool` run: the outcome of the n-th
`_execute_tool` invocation and whether the n-th `_connect_server` call
succeeds (both 0-indexed within the run). -/
structure Behavior where
  execOut : Nat → ExecOutcome
  connectOk : Nat → Bool

/-- MCPManager._connect_server (lines 99-145). The fallible part (the mcp
library import standing in for the real SSE connect) is the oracle bit
`ok`. On success it stores the entry with `connected := true` and discards
the name from pending (lines 133-141); on failure it raises ConnectionError
and leaves the state unchanged (line 145). A missing config key would raise
KeyError at line 109, before the try block. Returns the emitted trace
(one connect attempt) together with the outcome. -/
def MCPManager.connect_server (m : MCPManager) (server_name : String)
    (ok : Bool) : List Ev × Except CallError MCPManager :=
  match alookup m.server_configs server_name with
  | none => ([Ev.connectAttempt server_name], .error (.keyError server_name))
  | some config =>
    if ok then
      ([Ev.connectAttempt server_name],
       .ok { m with
              servers := dictInsert m.servers server_name
                { config := config
                  url := config.url
                  headers := config.auth_token.map
                    (fun t => String.append "Bearer " t)
                  connected := true }
              pending_connections :=
                pendingDiscard m.pending_connections server_name })
    else
      ([Ev.connectAttempt server_name],
       .error (.mcpConnectionFailed server_name))

/-- MCPManager.__init__ (lines 38-67): parse the config dict into
`MCPServerConfig` records keyed by server name (the `name` field is set
from the key), with the connection collections empty. -/
def mkManager (config : List (String × MCPServerConfig)) : MCPManager :=
  { server_configs := config.map (fun p => (p.1, { p.2 with name := p.1 }))
    servers := []
    pending_connections := [] }

/-- Loop body of MCPManager.initialize (lines 79-93): for each configured
server, skip it when disabled, otherwise attempt one connection; on failure
add the name to `pending_connections`. The per-server connect outcome is
`connOk name`. -/
def initLoop (connOk : String → Bool) :
    List (String × MCPServerConfig) → MCPManager → List Ev × MCPManager
  | [], m => ([], m)
  | (server_name, config) :: rest, m =>
    if config.enabled then
      match m.connect_server server_name (connOk server_name) with
      | (cev, .ok m1) =>
        let r := initLoop connOk rest m1
        (cev ++ r.1, r.2)
      | (cev, .error _) =>
        let r := initLoop connOk rest
          { m with pending_connections :=
              pendingAdd m.pending_connections server_name }
        (cev ++ r.1, r.2)
    else
      initLoop connOk rest m

/-- MCPManager.initialize (lines 69-97): iterate over the registered
configs, connecting each enabled server independently. -/
def MCPManager.startupConnect (m : MCPManager) (connOk : String → Bool) :
    List Ev × MCPManager :=
  initLoop connOk m.server_configs m

/-- Retry loop of MCPManager.call_tool (lines 195-245), structurally
recursing over the remaining delay list; `rest.isEmpty` is the source
check `attempt == len(self._retry_delays) - 1`. `en` and `cn` count the
`_execute_tool` invocations and `_connect_server` calls already made, to
index the behavior oracle. Returns the trace, the outcome (`.ok none` is
the implicit Python None when the loop body never runs), and the final
manager state. -/
def callToolLoop (beh : Behavior) (server_name tool_name : String)
    (retry : Bool) (m : MCPManager) (delays : List Nat) (en cn : Nat) :
    List Ev × Except CallError (Option ToolResult) × MCPManager :=
  match delays with
  | [] => ([], .ok none, m)
  | d :: rest =>
    let ev0 := [Ev.execStart server_name tool_name,
                Ev.execEnd server_name tool_name]
    match beh.execOut en with
    | .ok =>
      (ev0, .ok (some { status := "success", tool := tool_name,
                        server := server_name }), m)
    | .timeout =>
      if retry = false ∨ rest.isEmpty then
        (ev0, .error (.timedOut server_name tool_name), m)
      else
        let r := callToolLoop beh server_name tool_name retry m rest
          (en + 1) cn
        (ev0 ++ Ev.sleep d :: r.1, r.2)
    | .connError =>
      if retry = true ∧ rest.isEmpty = false then
        match m.connect_server server_name (beh.connectOk cn) with
        | (cev, .ok m1) =>
          let r := callToolLoop beh server_name tool_name retry m1 rest
            (en + 1) (cn + 1)
          (ev0 ++ cev ++ Ev.sleep d :: r.1, r.2)
        | (cev, .error _) =>
          (ev0 ++ cev, .error (.connectionFailed server_name), m)
      else
        (ev0, .error (.connectionFailed server_name), m)
    | .otherFailure exc =>
      if retry = false ∨ rest.isEmpty then
        (ev0, .error (.other exc), m)
      else
        let r := callToolLoop beh server_name tool_name retry m rest
          (en + 1) cn
        (ev0 ++ Ev.sleep d :: r.1, r.2)

/-- MCPManager.call_tool (lines 147-245): validate registration and
enablement, lazily connect when pending, check connectedness, then run the
retry loop under the per-server lock (the acquire and release events
bracket the loop trace; the async with statement releases on every exit). -/
def MCPManager.call_tool (m : MCPManager) (beh : Behavior)
    (server_name tool_name : String) (retry : Bool) :
    List Ev × Except CallError (Option ToolResult) × MCPManager :=
  match alookup m.server_configs server_name with
  | none => ([], .error (.notConfigured server_name), m)
  | some config =>
    if config.enabled = false then
      ([], .error (.disabled server_name), m)
    else
      let lazy : List Ev × Except CallError MCPManager × Nat :=
        if server_name ∈ m.pending_connections then
          match m.connect_server server_name (beh.connectOk 0) with
          | (cev, .ok m1) => (cev, .ok m1, 1)
          | (cev, .error _) =>
            (cev, .error (.cannotConnect server_name), 1)
        else ([], .ok m, 0)
      match lazy with
      | (pre, .error e, _) => (pre, .error e, m)
      | (pre, .ok m1, cn0) =>
        if alookup m1.servers server_name = none then
          (pre, .error (.notConnected server_name), m1)
        else
          let r := callToolLoop beh server_name tool_name retry m1
            retry_delays 0 cn0
          (pre ++ Ev.acquire server_name :: r.1 ++ [Ev.release server_name],
           r.2.1, r.2.2)

/-- MCPManager.cleanup (lines 326-344): delete every entry of `servers`,
iterating over a snapshot of the keys. -/
def MCPManager.cleanup (m : MCPManager) : MCPManager :=
  { m with servers :=
      (m.servers.map Prod.fst).foldl (fun s k => dictDelete s k) m.servers }

/-- MCPManager.is_connected (lines 346-356):
`server_name in self.servers and self.servers[server_name].get("connected", False)`. -/
def MCPManager.is_connected (m : MCPManager) (server_name : String) : Bool :=
  match alookup m.servers server_name with
  | some entry => entry.connected
  | none => false

/-- MCPManager.get_connected_servers (lines 358-365):
`list(self.servers.keys())`. -/
def MCPManager.get_connected_servers (m : MCPManager) : List String :=
  m.servers.map Prod.fst

/-- Number of `_execute_tool` invocations recorded in a trace. -/
def execCount (tr : List Ev) : Nat :=
  (tr.filter (fun e => match e with
    | Ev.execStart _ _ => true
    | _ => false)).length

/-- Number of `_connect_server` calls recorded in a trace. -/
def connectCount (tr : List Ev) : Nat :=
  (tr.filter (fun e => match e with
    | Ev.connectAttempt _ => true
    | _ => false)).length

/-- The backoff sleeps of a trace, in order. -/
def sleeps (tr : List Ev) : List Nat :=
  tr.filterMap (fun e => match e with
    | Ev.sleep d => some d
    | _ => none)

theorem execCount_append (a b : List Ev) :
    execCount (a ++ b) = execCount a + execCount b := by
  simp [execCount, List.filter_append]

theorem sleeps_append (a b : List Ev) :
    sleeps (a ++ b) = sleeps a ++ sleeps b := by
  simp [sleeps]

theorem connectCount_append (a b : List Ev) :
    connectCount (a ++ b) = connectCount a + connectCount b := by
  simp [connectCount, List.filter_append]

/-- Helper: on a registered, enabled, non-pending, connected server,
call_tool is the lock-bracketed retry loop run from the unchanged state. -/
theorem call_tool_ready (m : MCPManager) (beh : Behavior)
    (server_name tool_name : String) (retry : Bool)
    (config : MCPServerConfig) (entry : ServerEntry)
    (hcfg : alookup m.server_configs server_name = some config)
    (hen : config.enabled = true)
    (hp : server_name ∉ m.pending_connections)
    (hs : alookup m.servers server_name = some entry) :
    m.call_tool beh server_name tool_name retry =
      (Ev.acquire server_name ::
         (callToolLoop beh server_name tool_name retry m retry_delays 0 0).1
         ++ [Ev.release server_name],
       (callToolLoop beh server_name tool_name retry m retry_delays 0 0).2.1,
       (callToolLoop beh server_name tool_name retry m retry_delays 0 0).2.2) := by
  simp [MCPManager.call_tool, hcfg, hen, hp, hs]

/-- Concrete fixture: the registry of section 8 of the spec. -/
def jiraConfig : MCPServerConfig := { name := "jira", url := "https://x" }

/-- Concrete fixture: a freshly constructed manager (no startup connect). -/
def freshManager : MCPManager := mkManager [("jira", jiraConfig)]

/-- Concrete fixture: the fresh manager after a successful startup connect. -/
def connectedManager : MCPManager :=
  (freshManager.startupConnect (fun _ => true)).2

/-- Concrete fixture: transport always raises ConnectionError and every
reconnect attempt fails. -/
def behConnRefused : Behavior :=
  { execOut := fun _ => .connError, connectOk := fun _ => false }

/-- C4: for a server name not in the registry, call_tool fails immediately
with the not-configured ValueError (the UnknownServerError of the spec)
making zero connection and zero transport attempts (empty trace, state
unchanged); for a registered but disabled server it fails immediately with
the disabled ValueError (DisabledServerError) regardless of the connection
state; the two raise sites are distinct error conditions. -/
theorem c4_validation (m : MCPManager) (beh : Behavior)
    (server_name tool_name : String) (retry : Bool) :
    (alookup m.server_configs server_name = none →
       m.call_tool beh server_name tool_name retry =
         ([], .error (.notConfigured server_name), m)) ∧
    (∀ config, alookup m.server_configs server_name = some config →
       config.enabled = false →
       m.call_tool beh server_name tool_name retry =
         ([], .error (.disabled server_name), m)) ∧
    (∀ a b, CallError.notConfigured a ≠ CallError.disabled b) := by
  refine ⟨fun h => ?_, fun config h he => ?_, fun a b => ?_⟩
  · simp [MCPManager.call_tool, h]
  · simp [MCPManager.call_tool, h, he]
  · intro hc
    cases hc

/-- Witness for c4_validation: the unknown-server and disabled-server cases
evaluated on concrete managers. -/
theorem c4_validation_witness :
    freshManager.call_tool behConnRefused "missing" "noop" true =
      ([], .error (.notConfigured "missing"), freshManager) ∧
    (mkManager [("jira", { jiraConfig with enabled := false })]).call_tool
        behConnRefused "jira" "noop" true =
      ([], .error (.disabled "jira"),
       mkManager [("jira", { jiraConfig with enabled := false })]) := by
  constructor
  · exact (c4_validation freshManager behConnRefused "missing" "noop" true).1
      (by decide)
  · exact (c4_validation (mkManager [("jira", { jiraConfig with enabled := false })])
      behConnRefused "jira" "noop" true).2.1
      { jiraConfig with enabled := false } (by decide) (by decide)

/-- C5: when the transport times out on every attempt, call_tool with
retry true fails with the TimeoutError (ToolTimeoutError) after exactly
len(retry_delays) = 4 transport attempts, sleeping the delays of the
schedule in order between consecutive attempts (three gaps, delays 1, 2, 5);
with retry false it fails with the TimeoutError after the first attempt
with no sleep. -/
theorem c5_timeout_exhaustion (m : MCPManager) (beh : Behavior)
    (server_name tool_name : String)
    (config : MCPServerConfig) (entry : ServerEntry)
    (hcfg : alookup m.server_configs server_name = some config)
    (hen : config.enabled = true)
    (hp : server_name ∉ m.pending_connections)
    (hs : alookup m.servers server_name = some entry)
    (ht : ∀ n, beh.execOut n = .timeout) :
    (execCount (m.call_tool beh server_name tool_name true).1 =
        retry_delays.length ∧
     sleeps (m.call_tool beh server_name tool_name true).1 =
        retry_delays.take (retry_delays.length - 1) ∧
     (m.call_tool beh server_name tool_name true).2.1 =
        .error (.timedOut server_name tool_name)) ∧
    (execCount (m.call_tool beh server_name tool_name false).1 = 1 ∧
     sleeps (m.call_tool beh server_name tool_name false).1 = [] ∧
     (m.call_tool beh server_name tool_name false).2.1 =
        .error (.timedOut server_name tool_name)) := by
  rw [call_tool_ready m beh server_name tool_name true config entry hcfg hen hp hs,
      call_tool_ready m beh server_name tool_name false config entry hcfg hen hp hs]
  simp [callToolLoop, retry_delays, ht, execCount, sleeps]

/-- Witness for c5_timeout_exhaustion at the concrete connected manager. -/
theorem c5_timeout_exhaustion_witness :
    execCount ((connectedManager.call_tool
      { execOut := fun _ => .timeout, connectOk := fun _ => true }
      "jira" "create_issue" true).1) = retry_delays.length ∧
    execCount ((connectedManager.call_tool
      { execOut := fun _ => .timeout, connectOk := fun _ => true }
      "jira" "create_issue" false).1) = 1 := by
  have h := c5_timeout_exhaustion connectedManager
    { execOut := fun _ => .timeout, connectOk := fun _ => true }
    "jira" "create_issue" jiraConfig
    { config := jiraConfig, url := "https://x", headers := none,
      connected := true }
    (by decide) (by decide) (by decide) (by decide) (fun n => rfl)
  exact ⟨h.1.1, h.2.1⟩

/-- C7: for a transport failure that is neither a timeout nor a connection
error, call_tool with retry true retries until the schedule is exhausted
and then re-raises the original exception of the last attempt unchanged
(the opaque code of attempt 4 is surfaced as-is, not wrapped); with retry
false it re-raises the original exception of the first attempt. -/
theorem c7_generic_error (m : MCPManager) (beh : Behavior)
    (server_name tool_name : String)
    (config : MCPServerConfig) (entry : ServerEntry) (ec : Nat → Nat)
    (hcfg : alookup m.server_configs server_name = some config)
    (hen : config.enabled = true)
    (hp : server_name ∉ m.pending_connections)
    (hs : alookup m.servers server_name = some entry)
    (he : ∀ n, beh.execOut n = .otherFailure (ec n)) :
    (execCount (m.call_tool beh server_name tool_name true).1 =
        retry_delays.length ∧
     sleeps (m.call_tool beh server_name tool_name true).1 =
        retry_delays.take (retry_delays.length - 1) ∧
     (m.call_tool beh server_name tool_name true).2.1 =
        .error (.other (ec 3))) ∧
    (execCount (m.call_tool beh server_name tool_name false).1 = 1 ∧
     (m.call_tool beh server_name tool_name false).2.1 =
        .error (.other (ec 0))) := by
  rw [call_tool_ready m beh server_name tool_name true config entry hcfg hen hp hs,
      call_tool_ready m beh server_name tool_name false config entry hcfg hen hp hs]
  simp [callToolLoop, retry_delays, he, execCount, sleeps]

/-- Witness for c7_generic_error at the concrete connected manager. -/
theorem c7_generic_error_witness :
    ((connectedManager.call_tool
      { execOut := fun n => .otherFailure (100 + n), connectOk := fun _ => true }
      "jira" "create_issue" true).2.1 = .error (.other 103)) ∧
    ((connectedManager.call_tool
      { execOut := fun n => .otherFailure (100 + n), connectOk := fun _ => true }
      "jira" "create_issue" false).2.1 = .error (.other 100)) := by
  have h := c7_generic_error connectedManager
    { execOut := fun n => .otherFailure (100 + n), connectOk := fun _ => true }
    "jira" "create_issue" jiraConfig
    { config := jiraConfig, url := "https://x", headers := none,
      connected := true }
    (100 + ·) (by decide) (by decide) (by decide) (by decide) (fun n => rfl)
  exact ⟨h.1.2.2, h.2.2⟩

/-- Outcomes of the retry loop that sleep and continue to the next attempt
without touching the connection (the timeout and generic except clauses). -/
def retriesOn : ExecOutcome → Bool
  | .timeout => true
  | .otherFailure _ => true
  | _ => false

/-- Helper: if the first k-1 transport outcomes sleep and continue and the
k-th succeeds, the retry loop returns the success result of the k-th
invocation with exactly k invocations, k-1 sleeps, and the state unchanged. -/
theorem loop_success (beh : Behavior) (server_name tool_name : String) :
    ∀ (delays : List Nat) (k : Nat) (m : MCPManager) (en cn : Nat),
    1 ≤ k → k ≤ delays.length →
    (∀ i, i < k - 1 → retriesOn (beh.execOut (en + i)) = true) →
    beh.execOut (en + (k - 1)) = .ok →
    (callToolLoop beh server_name tool_name true m delays en cn).2.1 =
      .ok (some { status := "success", tool := tool_name,
                  server := server_name }) ∧
    execCount (callToolLoop beh server_name tool_name true m delays en cn).1
      = k ∧
    (sleeps (callToolLoop beh server_name tool_name true m delays en cn).1).length
      = k - 1 ∧
    (callToolLoop beh server_name tool_name true m delays en cn).2.2 = m := by
  intro delays
  induction delays with
  | nil =>
    intro k m en cn hk1 hk hpre hsucc
    simp at hk
    omega
  | cons d rest ih =>
    intro k m en cn hk1 hk hpre hsucc
    match k, hk1 with
    | 1, _ =>
      simp at hsucc
      simp [callToolLoop, hsucc, execCount, sleeps]
    | (j + 2), _ =>
      have hrest : rest.isEmpty = false := by
        cases rest with
        | nil => simp at hk
        | cons a l => simp
      have h0 : retriesOn (beh.execOut en) = true := by
        have := hpre 0 (by omega)
        simpa using this
      have hpre1 : ∀ i, i < (j + 1) - 1 →
          retriesOn (beh.execOut (en + 1 + i)) = true := by
        intro i hi
        have := hpre (i + 1) (by omega)
        have harith : en + (i + 1) = en + 1 + i := by omega
        rwa [harith] at this
      have hsucc1 : beh.execOut (en + 1 + ((j + 1) - 1)) = .ok := by
        have harith : en + (j + 2 - 1) = en + 1 + ((j + 1) - 1) := by omega
        rwa [harith] at hsucc
      have hrec := ih (j + 1) m (en + 1) cn (by omega)
        (by simp at hk ⊢; omega) hpre1 hsucc1
      cases hE : beh.execOut en with
      | ok => rw [hE] at h0; simp [retriesOn] at h0
      | connError => rw [hE] at h0; simp [retriesOn] at h0
      | timeout =>
        simp only [callToolLoop, hE, hrest, Bool.false_eq_true, or_self,
          if_false]
        simp only [execCount, sleeps] at hrec ⊢
        simp [List.filter_append, hrec.1, hrec.2.1, hrec.2.2.1, hrec.2.2.2]
      | otherFailure exc =>
        simp only [callToolLoop, hE, hrest, Bool.false_eq_true, or_self,
          if_false]
        simp only [execCount, sleeps] at hrec ⊢
        simp [List.filter_append, hrec.1, hrec.2.1, hrec.2.2.1, hrec.2.2.2]

/-- C6: if the transport succeeds on attempt k (1-indexed, k at most the
schedule length) after k-1 attempts that sleep and continue, call_tool
returns the result of that invocation immediately: exactly k transport
invocations, exactly k-1 backoff sleeps (none after the success), and no
further attempts. -/
theorem c6_success_immediate (m : MCPManager) (beh : Behavior)
    (server_name tool_name : String)
    (config : MCPServerConfig) (entry : ServerEntry) (k : Nat)
    (hcfg : alookup m.server_configs server_name = some config)
    (hen : config.enabled = true)
    (hp : server_name ∉ m.pending_connections)
    (hs : alookup m.servers server_name = some entry)
    (hk1 : 1 ≤ k) (hk : k ≤ retry_delays.length)
    (hpre : ∀ i, i < k - 1 → retriesOn (beh.execOut i) = true)
    (hsucc : beh.execOut (k - 1) = .ok) :
    (m.call_tool beh server_name tool_name true).2.1 =
      .ok (some { status := "success", tool := tool_name,
                  server := server_name }) ∧
    execCount (m.call_tool beh server_name tool_name true).1 = k ∧
    (sleeps (m.call_tool beh server_name tool_name true).1).length = k - 1 ∧
    (m.call_tool beh server_name tool_name true).2.2 = m := by
  rw [call_tool_ready m beh server_name tool_name true config entry hcfg hen hp hs]
  have h := loop_success beh server_name tool_name retry_delays k m 0 0
    hk1 hk (by simpa using hpre) (by simpa using hsucc)
  simp only [execCount, sleeps] at h ⊢
  simp [List.filter_append, h.1, h.2.1, h.2.2.1, h.2.2.2]

/-- Witness for c6_success_immediate: two timeouts then success on the
third attempt gives exactly three invocations and two sleeps. -/
theorem c6_success_immediate_witness :
    ((connectedManager.call_tool
      { execOut := fun n => if n < 2 then .timeout else .ok,
        connectOk := fun _ => true } "jira" "create_issue" true).2.1 =
      .ok (some { status := "success", tool := "create_issue",
                  server := "jira" })) ∧
    execCount ((connectedManager.call_tool
      { execOut := fun n => if n < 2 then .timeout else .ok,
        connectOk := fun _ => true } "jira" "create_issue" true).1) = 3 := by
  have h := c6_success_immediate connectedManager
    { execOut := fun n => if n < 2 then .timeout else .ok,
      connectOk := fun _ => true }
    "jira" "create_issue" jiraConfig
    { config := jiraConfig, url := "https://x", headers := none,
      connected := true } 3
    (by decide) (by decide) (by decide) (by decide) (by decide) (by decide)
    (by decide) (by decide)
  exact ⟨h.1, h.2.1⟩

theorem alookup_dictInsert_self {α : Type} (l : List (String × α))
    (k : String) (v : α) : alookup (dictInsert l k v) k = some v := by
  simp [alookup, dictInsert]

/-- Helper: the retry loop over a nonempty delay list always issues a
transport attempt first, so its trace starts with an invocation window. -/
theorem loop_trace_head (beh : Behavior) (server_name tool_name : String)
    (retry : Bool) (m : MCPManager) (d : Nat) (rest : List Nat)
    (en cn : Nat) :
    ∃ tl, (callToolLoop beh server_name tool_name retry m (d :: rest) en cn).1
      = Ev.execStart server_name tool_name ::
        Ev.execEnd server_name tool_name :: tl := by
  cases hE : beh.execOut en <;>
    simp only [callToolLoop, hE] <;>
    repeat' split
  all_goals exact ⟨_, rfl⟩

/-- Helper: a trace beginning with an invocation window records at least
one transport attempt. -/
theorem loop_execCount_pos (beh : Behavior) (server_name tool_name : String)
    (retry : Bool) (m : MCPManager) (d : Nat) (rest : List Nat)
    (en cn : Nat) :
    1 ≤ execCount
      (callToolLoop beh server_name tool_name retry m (d :: rest) en cn).1 := by
  obtain ⟨tl, htl⟩ := loop_trace_head beh server_name tool_name retry m d rest en cn
  simp [htl, execCount]

/-- C1 counterexample: registry holds one connected server, the transport
raises ConnectionError on the first attempt (not the last scheduled one,
since four attempts are scheduled), retry is true, and the reconnect
attempt fails. The claim says the loop then continues to the next
scheduled delay and issues the next attempt, terminating only on schedule
exhaustion; the code instead terminates at once with the ConnectionError
raise (ServerUnavailableError): one transport attempt, one reconnect
attempt, no sleep, no further attempts. -/
theorem c1_counterexample :
    connectedManager.call_tool behConnRefused "jira" "create_issue" true =
      ([Ev.acquire "jira", Ev.execStart "jira" "create_issue",
        Ev.execEnd "jira" "create_issue", Ev.connectAttempt "jira",
        Ev.release "jira"],
       .error (.connectionFailed "jira"), connectedManager) ∧
    execCount
      (connectedManager.call_tool behConnRefused "jira" "create_issue" true).1
      = 1 ∧
    sleeps
      (connectedManager.call_tool behConnRefused "jira" "create_issue" true).1
      = [] := by
  refine ⟨rfl, rfl, rfl⟩

/-- C1 amended: on a connection-level failure at an attempt that is not the
last scheduled one with retry true, exactly one reconnect is attempted; if
the reconnect succeeds the loop sleeps the current delay and issues the
next attempt; if the reconnect fails the call terminates immediately with
the ConnectionError raise (ServerUnavailableError) - reconnect failure
aborts the loop early, so exhaustion of the schedule is not the only way
the loop ends in ServerUnavailableError. -/
theorem c1_amended_reconnect (beh : Behavior) (m : MCPManager)
    (server_name tool_name : String) (config : MCPServerConfig)
    (d r : Nat) (rs : List Nat) (en cn : Nat)
    (hE : beh.execOut en = .connError)
    (hcfg : alookup m.server_configs server_name = some config) :
    (beh.connectOk cn = false →
       callToolLoop beh server_name tool_name true m (d :: r :: rs) en cn =
         ([Ev.execStart server_name tool_name,
           Ev.execEnd server_name tool_name,
           Ev.connectAttempt server_name],
          .error (.connectionFailed server_name), m)) ∧
    (beh.connectOk cn = true →
       ∃ m1, m.connect_server server_name true =
           ([Ev.connectAttempt server_name], .ok m1) ∧
         callToolLoop beh server_name tool_name true m (d :: r :: rs) en cn =
           (Ev.execStart server_name tool_name ::
              Ev.execEnd server_name tool_name ::
              Ev.connectAttempt server_name :: Ev.sleep d ::
              (callToolLoop beh server_name tool_name true m1 (r :: rs)
                (en + 1) (cn + 1)).1,
            (callToolLoop beh server_name tool_name true m1 (r :: rs)
              (en + 1) (cn + 1)).2.1,
            (callToolLoop beh server_name tool_name true m1 (r :: rs)
              (en + 1) (cn + 1)).2.2) ∧
         1 ≤ execCount (callToolLoop beh server_name tool_name true m1
              (r :: rs) (en + 1) (cn + 1)).1) := by
  constructor
  · intro hco
    simp [callToolLoop, hE, hco, MCPManager.connect_server, hcfg]
  · intro hco
    refine ⟨{ m with
        servers := dictInsert m.servers server_name
          { config := config
            url := config.url
            headers := config.auth_token.map
              (fun t => String.append "Bearer " t)
            connected := true }
        pending_connections :=
          pendingDiscard m.pending_connections server_name },
      by simp [MCPManager.connect_server, hcfg], ?_, ?_⟩
    · simp [callToolLoop, hE, hco, MCPManager.connect_server, hcfg]
    · exact loop_execCount_pos beh server_name tool_name true _ r rs
        (en + 1) (cn + 1)

/-- Witness for c1_amended_reconnect: both reconnect outcomes at a concrete
configuration. -/
theorem c1_amended_reconnect_witness :
    (callToolLoop behConnRefused "jira" "t" true connectedManager
       (1 :: 2 :: [5, 10]) 0 0 =
       ([Ev.execStart "jira" "t", Ev.execEnd "jira" "t",
         Ev.connectAttempt "jira"],
        .error (.connectionFailed "jira"), connectedManager)) ∧
    (∃ m1, connectedManager.connect_server "jira" true =
        ([Ev.connectAttempt "jira"], .ok m1) ∧
      callToolLoop
          { execOut := fun _ => .connError, connectOk := fun _ => true }
          "jira" "t" true connectedManager (1 :: 2 :: [5, 10]) 0 0 =
        (Ev.execStart "jira" "t" :: Ev.execEnd "jira" "t" ::
           Ev.connectAttempt "jira" :: Ev.sleep 1 ::
           (callToolLoop
             { execOut := fun _ => .connError, connectOk := fun _ => true }
             "jira" "t" true m1 (2 :: [5, 10]) 1 1).1,
         (callToolLoop
           { execOut := fun _ => .connError, connectOk := fun _ => true }
           "jira" "t" true m1 (2 :: [5, 10]) 1 1).2.1,
         (callToolLoop
           { execOut := fun _ => .connError, connectOk := fun _ => true }
           "jira" "t" true m1 (2 :: [5, 10]) 1 1).2.2) ∧
      1 ≤ execCount (callToolLoop
           { execOut := fun _ => .connError, connectOk := fun _ => true }
           "jira" "t" true m1 (2 :: [5, 10]) 1 1).1) := by
  constructor
  · exact (c1_amended_reconnect behConnRefused connectedManager "jira" "t"
      jiraConfig 1 2 [5, 10] 0 0 (by decide) (by decide)).1 (by decide)
  · exact (c1_amended_reconnect
      { execOut := fun _ => .connError, connectOk := fun _ => true }
      connectedManager "jira" "t"
      jiraConfig 1 2 [5, 10] 0 0 (by decide) (by decide)).2 (by decide)

/-- C2 counterexample: a freshly constructed manager holds a registered,
enabled server that is neither connected nor pending (the absent state:
construction happened, startup connect did not). The claim says call_tool
attempts exactly one connection before the retry loop; the code instead
raises the not-connected ConnectionError immediately with zero connection
attempts and zero transport attempts. -/
theorem c2_counterexample :
    freshManager.call_tool behConnRefused "jira" "create_issue" true =
      ([], .error (.notConnected "jira"), freshManager) ∧
    connectCount
      (freshManager.call_tool behConnRefused "jira" "create_issue" true).1
      = 0 ∧
    execCount
      (freshManager.call_tool behConnRefused "jira" "create_issue" true).1
      = 0 := by
  refine ⟨rfl, rfl, rfl⟩

/-- C2 amended: for a registered, enabled server in the pending state,
call_tool attempts exactly one connection before entering the retry loop;
if that connection fails it raises the wrapping ConnectionError
(ServerUnavailableError) with no transport attempt, and if it succeeds the
retry loop starts from the connected state. For a registered, enabled
server in the absent state (neither connected nor pending) call_tool
raises the not-connected ConnectionError immediately, with zero connection
attempts and zero transport attempts. -/
theorem c2_amended (m : MCPManager) (beh : Behavior)
    (server_name tool_name : String) (retry : Bool)
    (config : MCPServerConfig)
    (hcfg : alookup m.server_configs server_name = some config)
    (hen : config.enabled = true) :
    (server_name ∈ m.pending_connections → beh.connectOk 0 = false →
       m.call_tool beh server_name tool_name retry =
         ([Ev.connectAttempt server_name],
          .error (.cannotConnect server_name), m)) ∧
    (server_name ∈ m.pending_connections → beh.connectOk 0 = true →
       ∃ m1, m.connect_server server_name true =
           ([Ev.connectAttempt server_name], .ok m1) ∧
         m.call_tool beh server_name tool_name retry =
           (Ev.connectAttempt server_name :: Ev.acquire server_name ::
              (callToolLoop beh server_name tool_name retry m1
                retry_delays 0 1).1 ++ [Ev.release server_name],
            (callToolLoop beh server_name tool_name retry m1
              retry_delays 0 1).2.1,
            (callToolLoop beh server_name tool_name retry m1
              retry_delays 0 1).2.2)) ∧
    (server_name ∉ m.pending_connections →
       alookup m.servers server_name = none →
       m.call_tool beh server_name tool_name retry =
         ([], .error (.notConnected server_name), m)) := by
  refine ⟨fun hp hco => ?_, fun hp hco => ?_, fun hp habs => ?_⟩
  · simp [MCPManager.call_tool, hcfg, hen, hp, hco,
      MCPManager.connect_server]
  · refine ⟨{ m with
        servers := dictInsert m.servers server_name
          { config := config
            url := config.url
            headers := config.auth_token.map
              (fun t => String.append "Bearer " t)
            connected := true }
        pending_connections :=
          pendingDiscard m.pending_connections server_name },
      by simp [MCPManager.connect_server, hcfg], ?_⟩
    simp [MCPManager.call_tool, hcfg, hen, hp, hco,
      MCPManager.connect_server, alookup_dictInsert_self]
  · simp [MCPManager.call_tool, hcfg, hen, hp, habs]

/-- Witness for c2_amended: all three cases at concrete managers. -/
theorem c2_amended_witness :
    ((mkManager [("jira", jiraConfig)]).startupConnect
        (fun _ => false)).2.call_tool behConnRefused "jira" "t" true =
      ([Ev.connectAttempt "jira"], .error (.cannotConnect "jira"),
       ((mkManager [("jira", jiraConfig)]).startupConnect
         (fun _ => false)).2) ∧
    freshManager.call_tool behConnRefused "jira" "t" true =
      ([], .error (.notConnected "jira"), freshManager) := by
  constructor
  · exact (c2_amended
      ((mkManager [("jira", jiraConfig)]).startupConnect (fun _ => false)).2
      behConnRefused "jira" "t" true jiraConfig (by decide) (by decide)).1
      (by decide) (by decide)
  · exact (c2_amended freshManager behConnRefused "jira" "t" true jiraConfig
      (by decide) (by decide)).2.2 (by decide) (by decide)

theorem connect_server_fst (m : MCPManager) (n : String) (ok : Bool) :
    (m.connect_server n ok).1 = [Ev.connectAttempt n] := by
  cases h : alookup m.server_configs n
  · simp [MCPManager.connect_server, h]
  · simp only [MCPManager.connect_server, h]
    split <;> rfl

theorem alookup_filter_ne {α : Type} (l : List (String × α))
    (k k' : String) (h : k' ≠ k) :
    alookup (l.filter (fun p => p.1 ≠ k')) k = alookup l k := by
  induction l with
  | nil => rfl
  | cons p t ih =>
    obtain ⟨a, b⟩ := p
    by_cases hp : a = k'
    · have hc : decide ((a, b).1 ≠ k') = false := by simp [hp]
      have hk : ¬ a = k := by rw [hp]; exact h
      rw [List.filter_cons, hc, if_neg Bool.false_ne_true, ih]
      simp [alookup, hk]
    · have hc : decide ((a, b).1 ≠ k') = true := by simp [hp]
      rw [List.filter_cons, hc, if_pos rfl]
      simp only [alookup]
      rw [ih]

theorem alookup_dictInsert_ne {α : Type} (l : List (String × α))
    {k k' : String} (v : α) (h : k' ≠ k) :
    alookup (dictInsert l k' v) k = alookup l k := by
  simp only [dictInsert, alookup, h, if_false]
  exact alookup_filter_ne l k k' h

theorem mem_pendingDiscard (l : List String) (k s : String) :
    s ∈ pendingDiscard l k ↔ s ∈ l ∧ s ≠ k := by
  simp [pendingDiscard]

theorem mem_pendingAdd (l : List String) (k s : String) :
    s ∈ pendingAdd l k ↔ s ∈ l ∨ s = k := by
  by_cases h : k ∈ l
  · simp only [pendingAdd, h, if_true]
    constructor
    · exact fun hs => Or.inl hs
    · rintro (hs | hs)
      · exact hs
      · rw [hs]; exact h
  · simp only [pendingAdd, h, if_false, List.mem_cons]
    tauto

theorem mem_keys_iff_alookup {α : Type} (l : List (String × α)) (k : String) :
    k ∈ l.map Prod.fst ↔ (alookup l k).isSome := by
  induction l with
  | nil => simp [alookup]
  | cons p t ih =>
    by_cases hp : p.1 = k
    · simp [alookup, hp]
    · have : ¬(k = p.1) := fun hk => hp hk.symm
      simp [alookup, hp, this, ih]

/-- Helper: initLoop never modifies the registry of configs. -/
theorem initLoop_configs (connOk : String → Bool) :
    ∀ (l : List (String × MCPServerConfig)) (m : MCPManager),
    (initLoop connOk l m).2.server_configs = m.server_configs := by
  intro l
  induction l with
  | nil => intro m; rfl
  | cons p t ih =>
    intro m
    obtain ⟨n, cfg⟩ := p
    by_cases he : cfg.enabled
    · cases hd : alookup m.server_configs n with
      | none => simp [initLoop, he, MCPManager.connect_server, hd, ih]
      | some c =>
        cases hok : connOk n <;>
          simp [initLoop, he, MCPManager.connect_server, hd, hok, ih]
    · simp [initLoop, he, ih]

/-- Helper: initLoop leaves the connection bookkeeping of any server whose
name is not among the iterated keys untouched. -/
theorem initLoop_preserves (connOk : String → Bool) (name : String) :
    ∀ (l : List (String × MCPServerConfig)) (m : MCPManager),
    name ∉ l.map Prod.fst →
    alookup (initLoop connOk l m).2.servers name = alookup m.servers name ∧
    (name ∈ (initLoop connOk l m).2.pending_connections ↔
       name ∈ m.pending_connections) := by
  intro l
  induction l with
  | nil => intro m _; exact ⟨rfl, Iff.rfl⟩
  | cons p t ih =>
    intro m hn
    obtain ⟨n, cfg⟩ := p
    simp only [List.map_cons, List.mem_cons, not_or] at hn
    obtain ⟨hne, hnt⟩ := hn
    by_cases he : cfg.enabled
    · cases hd : alookup m.server_configs n with
      | none =>
        have h2 := ih
          { m with pending_connections := pendingAdd m.pending_connections n }
          hnt
        simp only [initLoop, he, MCPManager.connect_server, hd, if_true]
        refine ⟨h2.1, h2.2.trans ?_⟩
        simp [mem_pendingAdd, hne]
      | some c =>
        cases hok : connOk n
        · have h2 := ih
            { m with
                pending_connections := pendingAdd m.pending_connections n }
            hnt
          simp only [initLoop, he, MCPManager.connect_server, hd, hok,
            if_true, Bool.false_eq_true, if_false]
          refine ⟨h2.1, h2.2.trans ?_⟩
          simp [mem_pendingAdd, hne]
        · have h2 := ih
            { m with
                servers := dictInsert m.servers n
                  { config := c, url := c.url,
                    headers := c.auth_token.map
                      (fun tk => String.append "Bearer " tk),
                    connected := true },
                pending_connections :=
                  pendingDiscard m.pending_connections n }
            hnt
          simp only [initLoop, he, MCPManager.connect_server, hd, hok,
            if_true]
          constructor
          · refine h2.1.trans ?_
            exact alookup_dictInsert_ne m.servers _ (fun h => hne h.symm)
          · refine h2.2.trans ?_
            simp [mem_pendingDiscard, hne]
    · simp only [initLoop, if_neg he]
      exact ih m hnt

/-- Helper: initLoop makes exactly one connection attempt per enabled entry
of the iterated list and none for disabled entries. -/
theorem initLoop_connectCount (connOk : String → Bool) :
    ∀ (l : List (String × MCPServerConfig)) (m : MCPManager),
    connectCount (initLoop connOk l m).1 =
      (l.filter (fun p => p.2.enabled)).length := by
  intro l
  induction l with
  | nil => intro m; rfl
  | cons p t ih =>
    intro m
    obtain ⟨n, cfg⟩ := p
    by_cases he : cfg.enabled
    · have hfil : ((n, cfg) :: t).filter (fun p => p.2.enabled) =
        (n, cfg) :: t.filter (fun p => p.2.enabled) := by
        simp [List.filter_cons, he]
      rw [hfil]
      cases hd : alookup m.server_configs n with
      | none =>
        simp only [initLoop, he, MCPManager.connect_server, hd, if_true]
        rw [connectCount_append, ih]
        simp [connectCount, Nat.add_comm]
      | some c =>
        cases hok : connOk n <;>
          · simp only [initLoop, he, MCPManager.connect_server, hd, hok,
              if_true, Bool.false_eq_true, if_false]
            rw [connectCount_append, ih]
            simp [connectCount, Nat.add_comm]
    · have hfil : ((n, cfg) :: t).filter (fun p => p.2.enabled) =
        t.filter (fun p => p.2.enabled) := by
        simp [List.filter_cons, he]
      rw [hfil]
      simp only [initLoop, if_neg he]
      exact ih m

/-- Helper: the fate of one enabled server during initLoop depends only on
its own connect outcome: failure leaves its connection entry untouched and
records it pending, success stores a connection entry and leaves it out of
pending. -/
theorem initLoop_mem (connOk : String → Bool) (name : String)
    (cfg : MCPServerConfig) :
    ∀ (l : List (String × MCPServerConfig)) (m : MCPManager),
    (name, cfg) ∈ l → (l.map Prod.fst).Nodup →
    (alookup m.server_configs name).isSome →
    cfg.enabled = true →
    (connOk name = false →
       name ∈ (initLoop connOk l m).2.pending_connections ∧
       alookup (initLoop connOk l m).2.servers name =
         alookup m.servers name) ∧
    (connOk name = true →
       (alookup (initLoop connOk l m).2.servers name).isSome ∧
       name ∉ (initLoop connOk l m).2.pending_connections) := by
  intro l
  induction l with
  | nil => intro m hmem; exact absurd hmem (List.not_mem_nil _)
  | cons p t ih =>
    intro m hmem hnd hsome hen
    obtain ⟨n, cfg'⟩ := p
    simp only [List.map_cons, List.nodup_cons] at hnd
    obtain ⟨hnin, hndt⟩ := hnd
    by_cases hkey : name = n
    · subst hkey
      obtain rfl : cfg' = cfg := by
        rcases List.mem_cons.mp hmem with hh | ht
        · injection hh with h1 h2
          exact h2.symm
        · exact absurd (List.mem_map_of_mem Prod.fst ht) hnin
      obtain ⟨c, hd⟩ := Option.isSome_iff_exists.mp hsome
      have hnt : name ∉ t.map Prod.fst := hnin
      constructor
      · intro hok
        have hpres := initLoop_preserves connOk name t
          { m with pending_connections := pendingAdd m.pending_connections name }
          hnt
        simp only [initLoop, hen, MCPManager.connect_server, hd, hok,
          if_true, Bool.false_eq_true, if_false]
        refine ⟨hpres.2.mpr ?_, hpres.1⟩
        simp [mem_pendingAdd]
      · intro hok
        have hpres := initLoop_preserves connOk name t
          { m with
              servers := dictInsert m.servers name
                { config := c, url := c.url,
                  headers := c.auth_token.map
                    (fun tk => String.append "Bearer " tk),
                  connected := true },
              pending_connections :=
                pendingDiscard m.pending_connections name }
          hnt
        simp only [initLoop, hen, MCPManager.connect_server, hd, hok,
          if_true]
        constructor
        · rw [hpres.1]
          rw [alookup_dictInsert_self]
          rfl
        · intro hcontra
          have hmm := hpres.2.mp hcontra
          rw [mem_pendingDiscard] at hmm
          exact hmm.2 rfl
    · have htail : (name, cfg) ∈ t := by
        rcases List.mem_cons.mp hmem with hh | ht
        · injection hh with h1 h2
          exact absurd h1 hkey
        · exact ht
      by_cases he : cfg'.enabled
      · cases hd : alookup m.server_configs n with
        | none =>
          have hrec := ih
            { m with pending_connections := pendingAdd m.pending_connections n }
            htail hndt (by simpa using hsome) hen
          simp only [initLoop, he, MCPManager.connect_server, hd, if_true]
          exact hrec
        | some c =>
          cases hok : connOk n
          · have hrec := ih
              { m with
                  pending_connections := pendingAdd m.pending_connections n }
              htail hndt (by simpa using hsome) hen
            simp only [initLoop, he, MCPManager.connect_server, hd, hok,
              if_true, Bool.false_eq_true, if_false]
            exact hrec
          · have hrec := ih
              { m with
                  servers := dictInsert m.servers n
                    { config := c, url := c.url,
                      headers := c.auth_token.map
                        (fun tk => String.append "Bearer " tk),
                      connected := true },
                  pending_connections :=
                    pendingDiscard m.pending_connections n }
              htail hndt (by simpa using hsome) hen
            simp only [initLoop, he, MCPManager.connect_server, hd, hok,
              if_true]
            constructor
            · intro hof
              refine ⟨(hrec.1 hof).1, ((hrec.1 hof).2).trans ?_⟩
              exact alookup_dictInsert_ne m.servers _ (fun h => hkey h.symm)
            · exact hrec.2
      · simp only [initLoop, if_neg he]
        exact ih m htail hndt hsome hen

/-- Helper: a disabled entry is skipped by initLoop, and under distinct
keys no other iteration touches its bookkeeping. -/
theorem initLoop_mem_disabled (connOk : String → Bool) (name : String)
    (cfg : MCPServerConfig) :
    ∀ (l : List (String × MCPServerConfig)) (m : MCPManager),
    (name, cfg) ∈ l → (l.map Prod.fst).Nodup → cfg.enabled = false →
    alookup (initLoop connOk l m).2.servers name = alookup m.servers name ∧
    (name ∈ (initLoop connOk l m).2.pending_connections ↔
       name ∈ m.pending_connections) := by
  intro l
  induction l with
  | nil => intro m hmem; exact absurd hmem (List.not_mem_nil _)
  | cons p t ih =>
    intro m hmem hnd hdis
    obtain ⟨n, cfg'⟩ := p
    simp only [List.map_cons, List.nodup_cons] at hnd
    obtain ⟨hnin, hndt⟩ := hnd
    by_cases hkey : name = n
    · subst hkey
      have hcc : cfg' = cfg := by
        rcases List.mem_cons.mp hmem with hh | ht
        · injection hh with h1 h2
          exact h2.symm
        · exact absurd (List.mem_map_of_mem Prod.fst ht) hnin
      have hne : ¬ cfg'.enabled = true := by rw [hcc, hdis]; simp
      simp only [initLoop, if_neg hne]
      exact initLoop_preserves connOk name t m hnin
    · have htail : (name, cfg) ∈ t := by
        rcases List.mem_cons.mp hmem with hh | ht
        · injection hh with h1 h2
          exact absurd h1 hkey
        · exact ht
      by_cases he : cfg'.enabled
      · cases hd : alookup m.server_configs n with
        | none =>
          have hrec := ih
            { m with pending_connections := pendingAdd m.pending_connections n }
            htail hndt hdis
          simp only [initLoop, he, MCPManager.connect_server, hd, if_true]
          refine ⟨hrec.1, hrec.2.trans ?_⟩
          simp [mem_pendingAdd, hkey]
        | some c =>
          cases hok : connOk n
          · have hrec := ih
              { m with
                  pending_connections := pendingAdd m.pending_connections n }
              htail hndt hdis
            simp only [initLoop, he, MCPManager.connect_server, hd, hok,
              if_true, Bool.false_eq_true, if_false]
            refine ⟨hrec.1, hrec.2.trans ?_⟩
            simp [mem_pendingAdd, hkey]
          · have hrec := ih
              { m with
                  servers := dictInsert m.servers n
                    { config := c, url := c.url,
                      headers := c.auth_token.map
                        (fun tk => String.append "Bearer " tk),
                      connected := true },
                  pending_connections :=
                    pendingDiscard m.pending_connections n }
              htail hndt hdis
            simp only [initLoop, he, MCPManager.connect_server, hd, hok,
              if_true]
            constructor
            · refine hrec.1.trans ?_
              exact alookup_dictInsert_ne m.servers _ (fun h => hkey h.symm)
            · refine hrec.2.trans ?_
              simp [mem_pendingDiscard, hkey]
      · simp only [initLoop, if_neg he]
        exact ih m htail hndt hdis

theorem mkManager_keys (cfgs : List (String × MCPServerConfig)) :
    (mkManager cfgs).server_configs.map Prod.fst = cfgs.map Prod.fst := by
  simp [mkManager, List.map_map]

/-- C8: startup initialization on a freshly constructed manager attempts
exactly one connection per enabled configured server and none for disabled
servers; each enabled server whose connect fails is recorded pending and
is absent from get_connected_servers, each enabled server whose connect
succeeds is present in get_connected_servers and not pending - one server
connecting or failing never affects another server, since each fate
depends only on that server's own connect outcome. Disabled servers end up
neither connected nor pending. -/
theorem c8_startup (cfgs : List (String × MCPServerConfig))
    (connOk : String → Bool)
    (hnd : (cfgs.map Prod.fst).Nodup) :
    connectCount ((mkManager cfgs).startupConnect connOk).1 =
      ((mkManager cfgs).server_configs.filter
        (fun p => p.2.enabled)).length ∧
    (∀ name cfg, (name, cfg) ∈ (mkManager cfgs).server_configs →
       cfg.enabled = true →
       (connOk name = false →
          name ∈ ((mkManager cfgs).startupConnect connOk).2.pending_connections ∧
          name ∉ ((mkManager cfgs).startupConnect connOk).2.get_connected_servers) ∧
       (connOk name = true →
          name ∈ ((mkManager cfgs).startupConnect connOk).2.get_connected_servers ∧
          name ∉ ((mkManager cfgs).startupConnect connOk).2.pending_connections)) ∧
    (∀ name cfg, (name, cfg) ∈ (mkManager cfgs).server_configs →
       cfg.enabled = false →
       name ∉ ((mkManager cfgs).startupConnect connOk).2.pending_connections ∧
       name ∉ ((mkManager cfgs).startupConnect connOk).2.get_connected_servers) := by
  have hndm : ((mkManager cfgs).server_configs.map Prod.fst).Nodup := by
    rw [mkManager_keys]
    exact hnd
  refine ⟨initLoop_connectCount connOk _ _, ?_, ?_⟩
  · intro name cfg hmem hen
    have hsome : (alookup (mkManager cfgs).server_configs name).isSome := by
      rw [← mem_keys_iff_alookup]
      exact List.mem_map_of_mem Prod.fst hmem
    have h := initLoop_mem connOk name cfg (mkManager cfgs).server_configs
      (mkManager cfgs) hmem hndm hsome hen
    constructor
    · intro hok
      obtain ⟨hpend, hserv⟩ := h.1 hok
      refine ⟨hpend, ?_⟩
      rw [MCPManager.get_connected_servers, mem_keys_iff_alookup]
      simp only [MCPManager.startupConnect]
      rw [hserv]
      simp [mkManager, alookup]
    · intro hok
      obtain ⟨hserv, hpend⟩ := h.2 hok
      refine ⟨?_, hpend⟩
      rw [MCPManager.get_connected_servers, mem_keys_iff_alookup]
      exact hserv
  · intro name cfg hmem hdis
    have h := initLoop_mem_disabled connOk name cfg
      (mkManager cfgs).server_configs (mkManager cfgs) hmem hndm hdis
    constructor
    · simp only [MCPManager.startupConnect]
      rw [h.2]
      simp [mkManager]
    · rw [MCPManager.get_connected_servers, mem_keys_iff_alookup]
      simp only [MCPManager.startupConnect]
      rw [h.1]
      simp [mkManager, alookup]

/-- Witness for c8_startup: three configured servers (two enabled with
opposite connect outcomes, one disabled). -/
theorem c8_startup_witness :
    connectCount ((mkManager
      [("jira", jiraConfig),
       ("kube", { name := "kube", url := "https://k" }),
       ("db", { name := "db", url := "https://d", enabled := false })]).startupConnect
        (fun s => s = "jira")).1 = 2 ∧
    "kube" ∈ ((mkManager
      [("jira", jiraConfig),
       ("kube", { name := "kube", url := "https://k" }),
       ("db", { name := "db", url := "https://d", enabled := false })]).startupConnect
        (fun s => s = "jira")).2.pending_connections ∧
    "jira" ∈ ((mkManager
      [("jira", jiraConfig),
       ("kube", { name := "kube", url := "https://k" }),
       ("db", { name := "db", url := "https://d", enabled := false })]).startupConnect
        (fun s => s = "jira")).2.get_connected_servers ∧
    "db" ∉ ((mkManager
      [("jira", jiraConfig),
       ("kube", { name := "kube", url := "https://k" }),
       ("db", { name := "db", url := "https://d", enabled := false })]).startupConnect
        (fun s => s = "jira")).2.pending_connections := by
  have h := c8_startup
    [("jira", jiraConfig),
     ("kube", { name := "kube", url := "https://k" }),
     ("db", { name := "db", url := "https://d", enabled := false })]
    (fun s => s = "jira") (by decide)
  refine ⟨?_, ?_, ?_, ?_⟩
  · rw [h.1]; decide
  · exact ((h.2.1 "kube" { name := "kube", url := "https://k" }
      (by decide) (by decide)).1 (by decide)).1
  · exact ((h.2.1 "jira" jiraConfig (by decide) (by decide)).2
      (by decide)).1
  · exact (h.2.2 "db" { name := "db", url := "https://d", enabled := false }
      (by decide) (by decide)).1

/-- Boolean disjointness of the pending set and the connected key set. -/
def disjointB (m : MCPManager) : Bool :=
  m.pending_connections.all (fun s => decide (s ∉ m.get_connected_servers))

theorem disjointB_iff (m : MCPManager) :
    disjointB m = true ↔
      ∀ s, s ∈ m.pending_connections → s ∉ m.get_connected_servers := by
  simp [disjointB, List.all_eq_true]

/-- One mutating manager operation other than startup initialization: a
tool call, a connect, or a cleanup. -/
inductive MStep : MCPManager → MCPManager → Prop
  | call (m : MCPManager) (beh : Behavior) (server_name tool_name : String)
      (retry : Bool) :
      MStep m (m.call_tool beh server_name tool_name retry).2.2
  | conn (m : MCPManager) (server_name : String) (ok : Bool)
      (m1 : MCPManager) :
      (m.connect_server server_name ok).2 = .ok m1 → MStep m m1
  | clean (m : MCPManager) : MStep m m.cleanup

/-- Manager states reachable in the startup lifecycle: construction,
optionally followed by one startup initialization run from the fresh
state, then any sequence of tool calls, connects and cleanups. -/
inductive LifeReach (cfgs : List (String × MCPServerConfig)) :
    MCPManager → Prop
  | fresh : LifeReach cfgs (mkManager cfgs)
  | startup (connOk : String → Bool) :
      LifeReach cfgs ((mkManager cfgs).startupConnect connOk).2
  | step {m m' : MCPManager} : LifeReach cfgs m → MStep m m' →
      LifeReach cfgs m'

theorem mem_keys_dictInsert {α : Type} (l : List (String × α))
    (k s : String) (v : α) :
    s ∈ (dictInsert l k v).map Prod.fst ↔ s = k ∨ s ∈ l.map Prod.fst := by
  simp only [dictInsert, List.map_cons, List.mem_cons, List.mem_map,
    List.mem_filter]
  constructor
  · rintro (h | ⟨p, ⟨hp, hne⟩, rfl⟩)
    · exact Or.inl h
    · exact Or.inr ⟨p, hp, rfl⟩
  · rintro (h | ⟨p, hp, rfl⟩)
    · exact Or.inl h
    · by_cases hk : p.1 = k
      · exact Or.inl hk
      · exact Or.inr ⟨p, ⟨hp, by simpa using hk⟩, rfl⟩

/-- Helper: a successful connect preserves disjointness of pending and
connected: the name moves out of pending exactly as it enters connected. -/
theorem connect_preserves_disjoint (m : MCPManager) (n : String) (ok : Bool)
    (m1 : MCPManager) (h : (m.connect_server n ok).2 = .ok m1)
    (hd : disjointB m = true) : disjointB m1 = true := by
  rw [disjointB_iff] at hd ⊢
  cases hcf : alookup m.server_configs n with
  | none =>
    rw [MCPManager.connect_server, hcf] at h
    cases h
  | some c =>
    cases ok with
    | false =>
      rw [MCPManager.connect_server, hcf] at h
      simp at h
    | true =>
      rw [MCPManager.connect_server, hcf] at h
      simp only [if_true] at h
      injection h with h
      subst h
      intro s hs
      simp only [MCPManager.get_connected_servers]
      rw [mem_keys_dictInsert]
      rw [mem_pendingDiscard] at hs
      rintro (rfl | hmem)
      · exact hs.2 rfl
      · exact hd s hs.1 hmem

/-- Helper: the retry loop preserves disjointness of pending and connected
(its only state change is through reconnects). -/
theorem loop_preserves_disjoint (beh : Behavior)
    (server_name tool_name : String) (retry : Bool) :
    ∀ (delays : List Nat) (m : MCPManager) (en cn : Nat),
    disjointB m = true →
    disjointB
      (callToolLoop beh server_name tool_name retry m delays en cn).2.2
      = true := by
  intro delays
  induction delays with
  | nil => intro m en cn hd; exact hd
  | cons d rest ih =>
    intro m en cn hd
    cases hE : beh.execOut en with
    | ok => simp only [callToolLoop, hE]; exact hd
    | timeout =>
      by_cases hstop : retry = false ∨ rest.isEmpty
      · simp only [callToolLoop, hE, if_pos hstop]; exact hd
      · simp only [callToolLoop, hE, if_neg hstop]
        exact ih m (en + 1) cn hd
    | connError =>
      by_cases hgo : retry = true ∧ rest.isEmpty = false
      · rcases hc : m.connect_server server_name (beh.connectOk cn) with
          ⟨cev, cres⟩
        cases cres with
        | ok m1 =>
          simp only [callToolLoop, hE, if_pos hgo, hc]
          refine ih m1 (en + 1) (cn + 1) ?_
          exact connect_preserves_disjoint m server_name
            (beh.connectOk cn) m1 (by rw [hc]) hd
        | error e =>
          simp only [callToolLoop, hE, if_pos hgo, hc]
          exact hd
      · simp only [callToolLoop, hE, if_neg hgo]
        exact hd
    | otherFailure exc =>
      by_cases hstop : retry = false ∨ rest.isEmpty
      · simp only [callToolLoop, hE, if_pos hstop]; exact hd
      · simp only [callToolLoop, hE, if_neg hstop]
        exact ih m (en + 1) cn hd

/-- Helper: a whole tool call preserves disjointness of pending and
connected. -/
theorem call_tool_preserves_disjoint (m : MCPManager) (beh : Behavior)
    (server_name tool_name : String) (retry : Bool)
    (hd : disjointB m = true) :
    disjointB (m.call_tool beh server_name tool_name retry).2.2 = true := by
  cases hcf : alookup m.server_configs server_name with
  | none => simp only [MCPManager.call_tool, hcf]; exact hd
  | some config =>
    by_cases hen : config.enabled = false
    · simp only [MCPManager.call_tool, hcf, if_pos hen]; exact hd
    · by_cases hp : server_name ∈ m.pending_connections
      · cases hok : beh.connectOk 0 with
        | false =>
          simp only [MCPManager.call_tool, hcf, if_neg hen, hp, if_true,
            hok, MCPManager.connect_server]
          cases alookup m.server_configs server_name <;> simp <;> exact hd
        | true =>
          rcases hc : m.connect_server server_name true with ⟨cev, cres⟩
          cases cres with
          | ok m1 =>
            have hd1 : disjointB m1 = true :=
              connect_preserves_disjoint m server_name true m1
                (by rw [hc]) hd
            simp only [MCPManager.call_tool, hcf, if_neg hen, hp, if_true,
              hok, hc]
            by_cases habs : alookup m1.servers server_name = none
            · simp only [if_pos habs]; exact hd1
            · simp only [if_neg habs]
              exact loop_preserves_disjoint beh server_name tool_name
                retry retry_delays m1 0 1 hd1
          | error e =>
            simp only [MCPManager.call_tool, hcf, if_neg hen, hp, if_true,
              hok, hc]
            exact hd
      · simp only [MCPManager.call_tool, hcf, if_neg hen, hp, if_false]
        by_cases habs : alookup m.servers server_name = none
        · simp only [if_pos habs]; exact hd
        · simp only [if_neg habs]
          exact loop_preserves_disjoint beh server_name tool_name retry
            retry_delays m 0 0 hd

theorem foldl_dictDelete_nil {α : Type} :
    ∀ (ks : List String) (acc : List (String × α)),
    (∀ p ∈ acc, p.1 ∈ ks) →
    ks.foldl (fun s k => dictDelete s k) acc = [] := by
  intro ks
  induction ks with
  | nil =>
    intro acc h
    cases acc with
    | nil => rfl
    | cons p t => exact absurd (h p (List.mem_cons_self p t)) (List.not_mem_nil _)
  | cons k kt ih =>
    intro acc h
    simp only [List.foldl_cons]
    apply ih
    intro p hp
    rw [dictDelete] at hp
    rw [List.mem_filter] at hp
    have hk := h p hp.1
    rcases List.mem_cons.mp hk with hh | ht
    · exact absurd hh (by simpa using hp.2)
    · exact ht

/-- Helper: cleanup deletes every stored connection entry. -/
theorem cleanup_servers (m : MCPManager) : m.cleanup.servers = [] := by
  apply foldl_dictDelete_nil
  intro p hp
  exact List.mem_map_of_mem Prod.fst hp

theorem cleanup_preserves_disjoint (m : MCPManager) :
    disjointB m.cleanup = true := by
  rw [disjointB_iff]
  intro s hs
  simp [MCPManager.get_connected_servers, cleanup_servers]

/-- Helper: from a state whose connected map avoids the upcoming keys and
is disjoint from pending, initLoop keeps pending and connected disjoint. -/
theorem initLoop_disjoint (connOk : String → Bool) :
    ∀ (l : List (String × MCPServerConfig)) (m : MCPManager),
    disjointB m = true →
    (∀ s, s ∈ l.map Prod.fst → s ∉ m.servers.map Prod.fst) →
    (l.map Prod.fst).Nodup →
    disjointB (initLoop connOk l m).2 = true := by
  intro l
  induction l with
  | nil => intro m hd _ _; exact hd
  | cons p t ih
    =>
    intro m hd havoid hnd
    obtain ⟨n, cfg⟩ := p
    simp only [List.map_cons, List.nodup_cons] at hnd
    obtain ⟨hnin, hndt⟩ := hnd
    by_cases he : cfg.enabled
    · cases hcf : alookup m.server_configs n with
      | none =>
        simp only [initLoop, he, MCPManager.connect_server, hcf, if_true]
        apply ih
        · rw [disjointB_iff] at hd ⊢
          intro s hs
          rw [mem_pendingAdd] at hs
          rcases hs with hs | rfl
          · exact hd s hs
          · exact havoid s (List.mem_cons_self _ _)
        · intro s hst
          exact havoid s (List.mem_cons_of_mem _ hst)
        · exact hndt
      | some c =>
        cases hok : connOk n
        · simp only [initLoop, he, MCPManager.connect_server, hcf, hok,
            if_true, Bool.false_eq_true, if_false]
          apply ih
          · rw [disjointB_iff] at hd ⊢
            intro s hs
            rw [mem_pendingAdd] at hs
            rcases hs with hs | rfl
            · exact hd s hs
            · exact havoid s (List.mem_cons_self _ _)
          · intro s hst
            exact havoid s (List.mem_cons_of_mem _ hst)
          · exact hndt
        · simp only [initLoop, he, MCPManager.connect_server, hcf, hok,
            if_true]
          apply ih
          · refine connect_preserves_disjoint m n true _ ?_ hd
            rw [MCPManager.connect_server, hcf]
            simp
          · intro s hst
            intro hcontra
            simp only [mem_keys_dictInsert] at hcontra
            rcases hcontra with rfl | hmem
            · exact hnin hst
            · exact havoid s (List.mem_cons_of_mem _ hst) hmem
          · exact hndt
    · simp only [initLoop, if_neg he]
      apply ih m hd
      · intro s hst
        exact havoid s (List.mem_cons_of_mem _ hst)
      · exact hndt

/-- Helper: a startup run from the freshly constructed manager leaves
pending and connected disjoint. -/
theorem startup_disjoint (cfgs : List (String × MCPServerConfig))
    (connOk : String → Bool) (hnd : (cfgs.map Prod.fst).Nodup) :
    disjointB ((mkManager cfgs).startupConnect connOk).2 = true := by
  apply initLoop_disjoint
  · rw [disjointB_iff]
    intro s hs
    simp [mkManager] at hs
  · intro s _
    simp [mkManager]
  · rw [mkManager_keys]
    exact hnd

/-- C9 counterexample: run startup initialization twice on a one-server
registry, the first time with the connect succeeding and the second time
with it failing. The second run iterates over the already-connected server,
its connect attempt fails, and the failure handler adds the name to
pending_connections without removing it from the connected map: the
pending set and the connected set now both contain the server, refuting
disjointness after every operation. -/
theorem c9_counterexample :
    "jira" ∈ (((mkManager [("jira", jiraConfig)]).startupConnect
        (fun _ => true)).2.startupConnect (fun _ => false)).2.pending_connections ∧
    "jira" ∈ (((mkManager [("jira", jiraConfig)]).startupConnect
        (fun _ => true)).2.startupConnect (fun _ => false)).2.get_connected_servers ∧
    disjointB (((mkManager [("jira", jiraConfig)]).startupConnect
        (fun _ => true)).2.startupConnect (fun _ => false)).2 = false := by
  refine ⟨by decide, by decide, by decide⟩

/-- C9 amended: in the intended lifecycle - construction, at most one
startup initialization run from the fresh state, then any sequence of tool
calls, connects and cleanups - the pending set and the connected key set
stay disjoint after every operation: a successful connect removes the
server from pending as it enters the connected map, a failed connect
changes neither, and cleanup empties the connected map without touching
pending. Re-running startup initialization on a state with connected
servers is the one operation that can break this (see the counterexample). -/
theorem c9_amended (cfgs : List (String × MCPServerConfig)) (m : MCPManager)
    (hnd : (cfgs.map Prod.fst).Nodup) (hr : LifeReach cfgs m) :
    disjointB m = true := by
  induction hr with
  | fresh =>
    rw [disjointB_iff]
    intro s hs
    simp [mkManager] at hs
  | startup connOk => exact startup_disjoint cfgs connOk hnd
  | @step m m' hra hstep ih =>
    cases hstep with
      | call beh server_name tool_name retry =>
        exact call_tool_preserves_disjoint m beh server_name tool_name
          retry ih
      | conn server_name ok m1 hc =>
        exact connect_preserves_disjoint m server_name ok m' hc ih
      | clean => exact cleanup_preserves_disjoint m

/-- Witness for c9_amended: a failed startup followed by a tool call that
lazily connects, evaluated on the one-server registry. -/
theorem c9_amended_witness :
    disjointB ((((mkManager [("jira", jiraConfig)]).startupConnect
      (fun _ => false)).2.call_tool
        { execOut := fun _ => .ok, connectOk := fun _ => true }
        "jira" "create_issue" true).2.2) = true :=
  c9_amended [("jira", jiraConfig)] _ (by decide)
    (LifeReach.step (LifeReach.startup (fun _ => false))
      (MStep.call _ { execOut := fun _ => .ok, connectOk := fun _ => true }
        "jira" "create_issue" true))

/-- Boolean invariant: every stored connection entry has connected true. -/
def allConnB (m : MCPManager) : Bool :=
  m.servers.all (fun p => p.2.connected)

theorem allConnB_iff (m : MCPManager) :
    allConnB m = true ↔ ∀ p, p ∈ m.servers → p.2.connected = true := by
  simp [allConnB, List.all_eq_true]

theorem alookup_mem {α : Type} :
    ∀ (l : List (String × α)) (k : String) (v : α),
    alookup l k = some v → (k, v) ∈ l := by
  intro l
  induction l with
  | nil => intro k v h; cases h
  | cons p t ih =>
    intro k v h
    obtain ⟨a, b⟩ := p
    by_cases ha : a = k
    · rw [alookup, if_pos ha] at h
      injection h with h
      rw [← ha, ← h]
      exact List.mem_cons_self _ _
    · rw [alookup, if_neg ha] at h
      exact List.mem_cons_of_mem _ (ih k v h)

/-- Helper: a successful connect stores an entry with connected true and
keeps every previously stored entry, so the all-connected invariant is
preserved. -/
theorem connect_preserves_allConn (m : MCPManager) (n : String) (ok : Bool)
    (m1 : MCPManager) (h : (m.connect_server n ok).2 = .ok m1)
    (ha : allConnB m = true) : allConnB m1 = true := by
  rw [allConnB_iff] at ha ⊢
  cases hcf : alookup m.server_configs n with
  | none =>
    rw [MCPManager.connect_server, hcf] at h
    cases h
  | some c =>
    cases ok with
    | false =>
      rw [MCPManager.connect_server, hcf] at h
      simp at h
    | true =>
      rw [MCPManager.connect_server, hcf] at h
      simp only [if_true] at h
      injection h with h
      subst h
      intro p hp
      rcases List.mem_cons.mp hp with rfl | hmem
      · rfl
      · exact ha p (List.mem_filter.mp hmem).1

/-- Helper: the retry loop preserves the all-connected invariant. -/
theorem loop_preserves_allConn (beh : Behavior)
    (server_name tool_name : String) (retry : Bool) :
    ∀ (delays : List Nat) (m : MCPManager) (en cn : Nat),
    allConnB m = true →
    allConnB
      (callToolLoop beh server_name tool_name retry m delays en cn).2.2
      = true := by
  intro delays
  induction delays with
  | nil => intro m en cn ha; exact ha
  | cons d rest ih =>
    intro m en cn ha
    cases hE : beh.execOut en with
    | ok => simp only [callToolLoop, hE]; exact ha
    | timeout =>
      by_cases hstop : retry = false ∨ rest.isEmpty
      · simp only [callToolLoop, hE, if_pos hstop]; exact ha
      · simp only [callToolLoop, hE, if_neg hstop]
        exact ih m (en + 1) cn ha
    | connError =>
      by_cases hgo : retry = true ∧ rest.isEmpty = false
      · rcases hc : m.connect_server server_name (beh.connectOk cn) with
          ⟨cev, cres⟩
        cases cres with
        | ok m1 =>
          simp only [callToolLoop, hE, if_pos hgo, hc]
          refine ih m1 (en + 1) (cn + 1) ?_
          exact connect_preserves_allConn m server_name
            (beh.connectOk cn) m1 (by rw [hc]) ha
        | error e =>
          simp only [callToolLoop, hE, if_pos hgo, hc]
          exact ha
      · simp only [callToolLoop, hE, if_neg hgo]
        exact ha
    | otherFailure exc =>
      by_cases hstop : retry = false ∨ rest.isEmpty
      · simp only [callToolLoop, hE, if_pos hstop]; exact ha
      · simp only [callToolLoop, hE, if_neg hstop]
        exact ih m (en + 1) cn ha

/-- Helper: a whole tool call preserves the all-connected invariant. -/
theorem call_tool_preserves_allConn (m : MCPManager) (beh : Behavior)
    (server_name tool_name : String) (retry : Bool)
    (ha : allConnB m = true) :
    allConnB (m.call_tool beh server_name tool_name retry).2.2 = true := by
  cases hcf : alookup m.server_configs server_name with
  | none => simp only [MCPManager.call_tool, hcf]; exact ha
  | some config =>
    by_cases hen : config.enabled = false
    · simp only [MCPManager.call_tool, hcf, if_pos hen]; exact ha
    · by_cases hp : server_name ∈ m.pending_connections
      · cases hok : beh.connectOk 0 with
        | false =>
          simp only [MCPManager.call_tool, hcf, if_neg hen, hp, if_true,
            hok, MCPManager.connect_server]
          exact ha
        | true =>
          rcases hc : m.connect_server server_name true with ⟨cev, cres⟩
          cases cres with
          | ok m1 =>
            have ha1 : allConnB m1 = true :=
              connect_preserves_allConn m server_name true m1
                (by rw [hc]) ha
            simp only [MCPManager.call_tool, hcf, if_neg hen, hp, if_true,
              hok, hc]
            by_cases habs : alookup m1.servers server_name = none
            · simp only [if_pos habs]; exact ha1
            · simp only [if_neg habs]
              exact loop_preserves_allConn beh server_name tool_name
                retry retry_delays m1 0 1 ha1
          | error e =>
            simp only [MCPManager.call_tool, hcf, if_neg hen, hp, if_true,
              hok, hc]
            exact ha
      · simp only [MCPManager.call_tool, hcf, if_neg hen, hp, if_false]
        by_cases habs : alookup m.servers server_name = none
        · simp only [if_pos habs]; exact ha
        · simp only [if_neg habs]
          exact loop_preserves_allConn beh server_name tool_name retry
            retry_delays m 0 0 ha

/-- Helper: a startup initialization run preserves the all-connected
invariant from any state. -/
theorem initLoop_allConn (connOk : String → Bool) :
    ∀ (l : List (String × MCPServerConfig)) (m : MCPManager),
    allConnB m = true → allConnB (initLoop connOk l m).2 = true := by
  intro l
  induction l with
  | nil => intro m ha; exact ha
  | cons p t ih =>
    intro m ha
    obtain ⟨n, cfg⟩ := p
    by_cases he : cfg.enabled
    · cases hcf : alookup m.server_configs n with
      | none =>
        simp only [initLoop, he, MCPManager.connect_server, hcf, if_true]
        exact ih _ ha
      | some c =>
        cases hok : connOk n
        · simp only [initLoop, he, MCPManager.connect_server, hcf, hok,
            if_true, Bool.false_eq_true, if_false]
          exact ih _ ha
        · simp only [initLoop, he, MCPManager.connect_server, hcf, hok,
            if_true]
          apply ih
          refine connect_preserves_allConn m n true _ ?_ ha
          rw [MCPManager.connect_server, hcf]
          simp
    · simp only [initLoop, if_neg he]
      exact ih m ha

/-- Manager states reachable from construction through any sequence of
operations, startup initialization included (and repeatable). -/
inductive GReach (cfgs : List (String × MCPServerConfig)) :
    MCPManager → Prop
  | fresh : GReach cfgs (mkManager cfgs)
  | startup {m : MCPManager} (connOk : String → Bool) :
      GReach cfgs m → GReach cfgs (m.startupConnect connOk).2
  | step {m m' : MCPManager} : GReach cfgs m → MStep m m' →
      GReach cfgs m'

/-- Helper: in every reachable state all stored entries carry connected
true, since the only writer is _connect_server storing connected True and
nothing ever flips the flag. -/
theorem reach_allConn (cfgs : List (String × MCPServerConfig))
    (m : MCPManager) (hr : GReach cfgs m) : allConnB m = true := by
  induction hr with
  | fresh =>
    rw [allConnB_iff]
    intro p hp
    simp [mkManager] at hp
  | startup connOk hra ih => exact initLoop_allConn connOk _ _ ih
  | @step m m' hra hstep ih =>
    cases hstep with
      | call beh server_name tool_name retry =>
        exact call_tool_preserves_allConn m beh server_name tool_name
          retry ih
      | conn server_name ok m1 hc =>
        exact connect_preserves_allConn m server_name ok m' hc ih
      | clean =>
        rw [allConnB_iff]
        intro p hp
        rw [cleanup_servers] at hp
        exact absurd hp (List.not_mem_nil _)

/-- C10: in every state reachable from construction by any sequence of
operations, every entry of the connected-servers map has its connected
flag True (the only writer stores True and no operation flips it), and
consequently is_connected s is true exactly when s appears in the list
returned by get_connected_servers. -/
theorem c10_connected_iff (cfgs : List (String × MCPServerConfig))
    (m : MCPManager) (hr : GReach cfgs m) :
    allConnB m = true ∧
    ∀ s, m.is_connected s = true ↔ s ∈ m.get_connected_servers := by
  have ha := reach_allConn cfgs m hr
  refine ⟨ha, fun s => ?_⟩
  constructor
  · intro hc
    rw [MCPManager.is_connected] at hc
    rw [MCPManager.get_connected_servers, mem_keys_iff_alookup]
    cases hl : alookup m.servers s with
    | none => rw [hl] at hc; cases hc
    | some entry => simp [hl]
  · intro hmem
    rw [MCPManager.get_connected_servers, mem_keys_iff_alookup] at hmem
    cases hl : alookup m.servers s with
    | none => rw [hl] at hmem; cases hmem
    | some entry =>
      rw [MCPManager.is_connected, hl]
      exact (allConnB_iff m).mp ha (s, entry) (alookup_mem m.servers s entry hl)

/-- Witness for c10_connected_iff: the equivalence evaluated after a
startup and a cleanup. -/
theorem c10_connected_iff_witness :
    ((((mkManager [("jira", jiraConfig)]).startupConnect
        (fun _ => true)).2.cleanup).is_connected "jira" = true ↔
      "jira" ∈ (((mkManager [("jira", jiraConfig)]).startupConnect
        (fun _ => true)).2.cleanup).get_connected_servers) :=
  (c10_connected_iff [("jira", jiraConfig)] _
    (GReach.step (GReach.startup (fun _ => true) GReach.fresh)
      (MStep.clean _))).2 "jira"

def wlk : List Ev → Bool → Bool → Bool
  | [], held, opn => !held && !opn
  | Ev.acquire _ :: tl, held, opn => !held && !opn && wlk tl true false
  | Ev.release _ :: tl, held, opn => held && !opn && wlk tl false false
  | Ev.execStart _ _ :: tl, held, opn => held && !opn && wlk tl true true
  | Ev.execEnd _ _ :: tl, held, opn => held && opn && wlk tl true false
  | Ev.sleep _ :: tl, held, opn => held && !opn && wlk tl held opn
  | Ev.connectAttempt _ :: tl, held, opn => !opn && wlk tl held opn

def schedOk : List (Bool × Ev) → Option Bool → Bool
  | [], _ => true
  | (t, Ev.acquire _) :: tl, h => decide (h = none) && schedOk tl (some t)
  | (t, Ev.release _) :: tl, h => decide (h = some t) && schedOk tl none
  | _ :: tl, h => schedOk tl h

def noOverlap : List (Bool × Ev) → Option Bool → Bool
  | [], _ => true
  | (t, Ev.execStart _ _) :: tl, o =>
    decide (o = none) && noOverlap tl (some t)
  | (t, Ev.execEnd _ _) :: tl, o =>
    decide (o = some t) && noOverlap tl none
  | _ :: tl, o => noOverlap tl o

inductive IsMerge : List Ev → List Ev → List (Bool × Ev) → Prop
  | nil : IsMerge [] [] []
  | left {xs ys zs} (e : Ev) :
      IsMerge xs ys zs → IsMerge (e :: xs) ys ((false, e) :: zs)
  | right {xs ys zs} (e : Ev) :
      IsMerge xs ys zs → IsMerge xs (e :: ys) ((true, e) :: zs)

theorem merge_core :
    ∀ {xs ys : List Ev} {zs : List (Bool × Ev)}, IsMerge xs ys zs →
    ∀ (hA oA hB oB : Bool),
    wlk xs hA oA = true → wlk ys hB oB = true →
    (hA && hB) = false →
    (oA = true → hA = true) → (oB = true → hB = true) →
    schedOk zs (if hA then some false else if hB then some true else none)
      = true →
    noOverlap zs (if oA then some false else if oB then some true else none)
      = true := by
  intro xs ys zs hm
  induction hm with
  | nil => intro hA oA hB oB _ _ _ _ _ _; rfl
  | left e hm ih =>
    intro hA oA hB oB hwx hwy hmx hoA hoB hsch
    cases e with
    | acquire s =>
      cases hA with
      | true => simp [wlk] at hwx
      | false =>
        cases oA with
        | true => simp [wlk] at hwx
        | false =>
          simp only [wlk] at hwx
          simp at hwx
          cases hB with
          | true => simp [schedOk] at hsch
          | false =>
            have oB0 : oB = false := by
              cases oB
              · rfl
              · exact absurd (hoB rfl) (by simp)
            subst oB0
            simp only [schedOk] at hsch
            simp at hsch
            simp only [noOverlap]
            exact ih true false false false hwx hwy (by simp)
              (fun _ => rfl) (fun h => by simp at h) hsch
    | release s =>
      cases hA with
      | false => simp [wlk] at hwx
      | true =>
        cases oA with
        | true => simp [wlk] at hwx
        | false =>
          simp only [wlk] at hwx
          simp at hwx
          have hB0 : hB = false := by
            cases hB
            · rfl
            · simp at hmx
          subst hB0
          have oB0 : oB = false := by
            cases oB
            · rfl
            · exact absurd (hoB rfl) (by simp)
          subst oB0
          simp only [schedOk] at hsch
          simp at hsch
          simp only [noOverlap]
          exact ih false false false false hwx hwy (by simp)
            (fun h => by simp at h) (fun h => by simp at h) hsch
    | execStart s t =>
      cases hA with
      | false => simp [wlk] at hwx
      | true =>
        cases oA with
        | true => simp [wlk] at hwx
        | false =>
          simp only [wlk] at hwx
          simp at hwx
          have hB0 : hB = false := by
            cases hB
            · rfl
            · simp at hmx
          subst hB0
          have oB0 : oB = false := by
            cases oB
            · rfl
            · exact absurd (hoB rfl) (by simp)
          subst oB0
          simp only [schedOk] at hsch
          simp only [noOverlap]
          simp
          exact ih true true false false hwx hwy (by simp)
            (fun _ => rfl) (fun h => by simp at h) hsch
    | execEnd s t =>
      cases hA with
      | false => simp [wlk] at hwx
      | true =>
        cases oA with
        | false => simp [wlk] at hwx
        | true =>
          simp only [wlk] at hwx
          simp at hwx
          have hB0 : hB = false := by
            cases hB
            · rfl
            · simp at hmx
          subst hB0
          have oB0 : oB = false := by
            cases oB
            · rfl
            · exact absurd (hoB rfl) (by simp)
          subst oB0
          simp only [schedOk] at hsch
          simp only [noOverlap]
          simp
          exact ih true false false false hwx hwy (by simp)
            (fun _ => rfl) (fun h => by simp at h) hsch
    | sleep d =>
      cases hA with
      | false => simp [wlk] at hwx
      | true =>
        cases oA with
        | true => simp [wlk] at hwx
        | false =>
          simp only [wlk] at hwx
          simp at hwx
          have hB0 : hB = false := by
            cases hB
            · rfl
            · simp at hmx
          subst hB0
          have oB0 : oB = false := by
            cases oB
            · rfl
            · exact absurd (hoB rfl) (by simp)
          subst oB0
          simp only [schedOk] at hsch
          simp only [noOverlap]
          exact ih true false false false hwx hwy (by simp)
            (fun _ => rfl) (fun h => by simp at h) hsch
    | connectAttempt s =>
      cases oA with
      | true => simp [wlk] at hwx
      | false =>
        simp only [wlk] at hwx
        simp at hwx
        simp only [schedOk] at hsch
        simp only [noOverlap]
        exact ih hA false hB oB hwx hwy hmx
          (fun h => by simp at h) hoB hsch
  | right e hm ih =>
    intro hA oA hB oB hwx hwy hmx hoA hoB hsch
    cases e with
    | acquire s =>
      cases hB with
      | true => simp [wlk] at hwy
      | false =>
        cases oB with
        | true => simp [wlk] at hwy
        | false =>
          simp only [wlk] at hwy
          simp at hwy
          cases hA with
          | true => simp [schedOk] at hsch
          | false =>
            have oA0 : oA = false := by
              cases oA
              · rfl
              · exact absurd (hoA rfl) (by simp)
            subst oA0
            simp only [schedOk] at hsch
            simp at hsch
            simp only [noOverlap]
            exact ih false false true false hwx hwy (by simp)
              (fun h => by simp at h) (fun _ => rfl) hsch
    | release s =>
      cases hB with
      | false => simp [wlk] at hwy
      | true =>
        cases oB with
        | true => simp [wlk] at hwy
        | false =>
          simp only [wlk] at hwy
          simp at hwy
          have hA0 : hA = false := by
            cases hA
            · rfl
            · simp at hmx
          subst hA0
          have oA0 : oA = false := by
            cases oA
            · rfl
            · exact absurd (hoA rfl) (by simp)
          subst oA0
          simp only [schedOk] at hsch
          simp at hsch
          simp only [noOverlap]
          exact ih false false false false hwx hwy (by simp)
            (fun h => by simp at h) (fun h => by simp at h) hsch
    | execStart s t =>
      cases hB with
      | false => simp [wlk] at hwy
      | true =>
        cases oB with
        | true => simp [wlk] at hwy
        | false =>
          simp only [wlk] at hwy
          simp at hwy
          have hA0 : hA = false := by
            cases hA
            · rfl
            · simp at hmx
          subst hA0
          have oA0 : oA = false := by
            cases oA
            · rfl
            · exact absurd (hoA rfl) (by simp)
          subst oA0
          simp only [schedOk] at hsch
          simp only [noOverlap]
          simp
          exact ih false false true true hwx hwy (by simp)
            (fun h => by simp at h) (fun _ => rfl) hsch
    | execEnd s t =>
      cases hB with
      | false => simp [wlk] at hwy
      | true =>
        cases oB with
        | false => simp [wlk] at hwy
        | true =>
          simp only [wlk] at hwy
          simp at hwy
          have hA0 : hA = false := by
            cases hA
            · rfl
            · simp at hmx
          subst hA0
          have oA0 : oA = false := by
            cases oA
            · rfl
            · exact absurd (hoA rfl) (by simp)
          subst oA0
          simp only [schedOk] at hsch
          simp only [noOverlap]
          simp
          exact ih false false true false hwx hwy (by simp)
            (fun h => by simp at h) (fun _ => rfl) hsch
    | sleep d =>
      cases hB with
      | false => simp [wlk] at hwy
      | true =>
        cases oB with
        | true => simp [wlk] at hwy
        | false =>
          simp only [wlk] at hwy
          simp at hwy
          have hA0 : hA = false := by
            cases hA
            · rfl
            · simp at hmx
          subst hA0
          have oA0 : oA = false := by
            cases oA
            · rfl
            · exact absurd (hoA rfl) (by simp)
          subst oA0
          simp only [schedOk] at hsch
          simp only [noOverlap]
          exact ih false false true false hwx hwy (by simp)
            (fun h => by simp at h) (fun _ => rfl) hsch
    | connectAttempt s =>
      cases oB with
      | true => simp [wlk] at hwy
      | false =>
        simp only [wlk] at hwy
        simp at hwy
        simp only [schedOk] at hsch
        simp only [noOverlap]
        exact ih hA oA hB false hwx hwy hmx hoA
          (fun h => by simp at h) hsch

/-- Helper: the retry loop trace keeps the lock held throughout: scanning
it from the held state ends in the held state, with every event legal. -/
theorem wlk_loop (beh : Behavior) (server_name tool_name : String)
    (retry : Bool) :
    ∀ (delays : List Nat) (m : MCPManager) (en cn : Nat) (tail : List Ev),
    wlk ((callToolLoop beh server_name tool_name retry m delays en cn).1
      ++ tail) true false = wlk tail true false := by
  intro delays
  induction delays with
  | nil => intro m en cn tail; simp [callToolLoop]
  | cons d rest ih =>
    intro m en cn tail
    cases hE : beh.execOut en with
    | ok => simp [callToolLoop, hE, wlk]
    | timeout =>
      by_cases hstop : retry = false ∨ rest.isEmpty
      · simp only [callToolLoop, hE, if_pos hstop]
        simp [wlk]
      · simp only [callToolLoop, hE, if_neg hstop]
        simp [wlk, ih]
    | connError =>
      by_cases hgo : retry = true ∧ rest.isEmpty = false
      · rcases hc : m.connect_server server_name (beh.connectOk cn) with
          ⟨cev, cres⟩
        have hcev : cev = [Ev.connectAttempt server_name] := by
          have hf := connect_server_fst m server_name (beh.connectOk cn)
          rw [hc] at hf
          exact hf
        subst hcev
        cases cres with
        | ok m1 =>
          simp only [callToolLoop, hE, if_pos hgo, hc]
          simp [wlk, ih]
        | error e =>
          simp only [callToolLoop, hE, if_pos hgo, hc]
          simp [wlk]
      · simp only [callToolLoop, hE, if_neg hgo]
        simp [wlk]
    | otherFailure exc =>
      by_cases hstop : retry = false ∨ rest.isEmpty
      · simp only [callToolLoop, hE, if_pos hstop]
        simp [wlk]
      · simp only [callToolLoop, hE, if_neg hstop]
        simp [wlk, ih]

/-- Helper: every call_tool trace is well locked: starting unheld it scans
to the unheld state, transport invocations and backoff sleeps occur only
while the lock is held, the lock is taken at most once and released on
every exit path that took it. -/
theorem call_tool_wellLocked (m : MCPManager) (beh : Behavior)
    (server_name tool_name : String) (retry : Bool) :
    wlk (m.call_tool beh server_name tool_name retry).1 false false
      = true := by
  cases hcf : alookup m.server_configs server_name with
  | none => simp [MCPManager.call_tool, hcf, wlk]
  | some config =>
    by_cases hen : config.enabled = false
    · simp [MCPManager.call_tool, hcf, hen, wlk]
    · by_cases hp : server_name ∈ m.pending_connections
      · cases hok : beh.connectOk 0 with
        | false =>
          simp [MCPManager.call_tool, hcf, hen, hp, hok,
            MCPManager.connect_server, wlk]
        | true =>
          rcases hc : m.connect_server server_name true with ⟨cev, cres⟩
          have hcev : cev = [Ev.connectAttempt server_name] := by
            have hf := connect_server_fst m server_name true
            rw [hc] at hf
            exact hf
          subst hcev
          cases cres with
          | ok m1 =>
            simp only [MCPManager.call_tool, hcf, if_neg hen, hp, if_true,
              hok, hc]
            by_cases habs : alookup m1.servers server_name = none
            · simp [habs, wlk]
            · simp only [if_neg habs, List.cons_append, List.nil_append]
              simp only [wlk, List.append_eq]
              rw [wlk_loop]
              simp [wlk]
          | error e =>
            simp only [MCPManager.call_tool, hcf, if_neg hen, hp, if_true,
              hok, hc]
            simp [wlk]
      · simp only [MCPManager.call_tool, hcf, if_neg hen, hp, if_false]
        by_cases habs : alookup m.servers server_name = none
        · simp [habs, wlk]
        · simp only [if_neg habs, List.nil_append]
          simp only [wlk, List.append_eq]
          rw [wlk_loop]
          simp [wlk]

/-- Events other than lock acquire and release. -/
def lockFree : Ev → Bool
  | Ev.acquire _ => false
  | Ev.release _ => false
  | _ => true

/-- Helper: the retry loop trace contains no lock events, so every attempt,
reconnect and sleep it records lies strictly inside the lock bracket that
call_tool wraps around it. -/
theorem loop_lockFree (beh : Behavior) (server_name tool_name : String)
    (retry : Bool) :
    ∀ (delays : List Nat) (m : MCPManager) (en cn : Nat) (e : Ev),
    e ∈ (callToolLoop beh server_name tool_name retry m delays en cn).1 →
    lockFree e = true := by
  intro delays
  induction delays with
  | nil => intro m en cn e he; simp [callToolLoop] at he
  | cons d rest ih =>
    intro m en cn e he
    cases hE : beh.execOut en with
    | ok =>
      simp only [callToolLoop, hE, List.mem_cons, List.not_mem_nil,
        or_false] at he
      rcases he with rfl | rfl <;> rfl
    | timeout =>
      by_cases hstop : retry = false ∨ rest.isEmpty
      · simp only [callToolLoop, hE, if_pos hstop, List.mem_cons,
          List.not_mem_nil, or_false] at he
        rcases he with rfl | rfl <;> rfl
      · simp only [callToolLoop, hE, if_neg hstop, List.append_eq,
          List.cons_append, List.nil_append, List.mem_cons] at he
        rcases he with rfl | rfl | rfl | he
        · rfl
        · rfl
        · rfl
        · exact ih m (en + 1) cn e he
    | connError =>
      by_cases hgo : retry = true ∧ rest.isEmpty = false
      · rcases hc : m.connect_server server_name (beh.connectOk cn) with
          ⟨cev, cres⟩
        have hcev : cev = [Ev.connectAttempt server_name] := by
          have hf := connect_server_fst m server_name (beh.connectOk cn)
          rw [hc] at hf
          exact hf
        subst hcev
        cases cres with
        | ok m1 =>
          simp only [callToolLoop, hE, if_pos hgo, hc,
            List.cons_append, List.nil_append, List.mem_cons] at he
          rcases he with rfl | rfl | rfl | rfl | he
          · rfl
          · rfl
          · rfl
          · rfl
          · exact ih m1 (en + 1) (cn + 1) e he
        | error exc =>
          simp only [callToolLoop, hE, if_pos hgo, hc,
            List.cons_append, List.nil_append, List.mem_cons,
            List.not_mem_nil, or_false] at he
          rcases he with rfl | rfl | rfl
          · rfl
          · rfl
          · rfl
      · simp only [callToolLoop, hE, if_neg hgo, List.mem_cons,
          List.not_mem_nil, or_false] at he
        rcases he with rfl | rfl
        · rfl
        · rfl
    | otherFailure exc =>
      by_cases hstop : retry = false ∨ rest.isEmpty
      · simp only [callToolLoop, hE, if_pos hstop, List.mem_cons,
          List.not_mem_nil, or_false] at he
        rcases he with rfl | rfl <;> rfl
      · simp only [callToolLoop, hE, if_neg hstop, List.append_eq,
          List.cons_append, List.nil_append, List.mem_cons] at he
        rcases he with rfl | rfl | rfl | he
        · rfl
        · rfl
        · rfl
        · exact ih m (en + 1) cn e he

/-- Helper: every call_tool trace either makes no transport attempt at all
(the validation and connect failure exits, whose traces hold no lock
events), or decomposes as pre-events, one acquire, a lock-free body holding
the whole retry sequence, and one final release. -/
theorem call_tool_bracket (m : MCPManager) (beh : Behavior)
    (server_name tool_name : String) (retry : Bool) :
    (execCount (m.call_tool beh server_name tool_name retry).1 = 0 ∧
     ∀ e ∈ (m.call_tool beh server_name tool_name retry).1,
       lockFree e = true) ∨
    (∃ pre body, (m.call_tool beh server_name tool_name retry).1 =
       pre ++ Ev.acquire server_name :: body ++ [Ev.release server_name] ∧
     (∀ e ∈ pre, lockFree e = true) ∧
     (∀ e ∈ body, lockFree e = true)) := by
  cases hcf : alookup m.server_configs server_name with
  | none =>
    left
    simp [MCPManager.call_tool, hcf, execCount]
  | some config =>
    by_cases hen : config.enabled = false
    · left
      simp [MCPManager.call_tool, hcf, hen, execCount]
    · by_cases hp : server_name ∈ m.pending_connections
      · cases hok : beh.connectOk 0 with
        | false =>
          left
          cases hcf2 : alookup m.server_configs server_name <;>
            simp [MCPManager.call_tool, hcf, hen, hp, hok,
              MCPManager.connect_server, hcf2, execCount, lockFree]
        | true =>
          rcases hc : m.connect_server server_name true with ⟨cev, cres⟩
          have hcev : cev = [Ev.connectAttempt server_name] := by
            have hf := connect_server_fst m server_name true
            rw [hc] at hf
            exact hf
          subst hcev
          cases cres with
          | ok m1 =>
            simp only [MCPManager.call_tool, hcf, if_neg hen, hp, if_true,
              hok, hc]
            by_cases habs : alookup m1.servers server_name = none
            · left
              simp [habs, execCount, lockFree]
            · right
              simp only [if_neg habs]
              refine ⟨[Ev.connectAttempt server_name], _, rfl, ?_, ?_⟩
              · intro e he
                simp only [List.mem_singleton] at he
                subst he
                rfl
              · intro e he
                exact loop_lockFree beh server_name tool_name retry
                  retry_delays m1 0 1 e he
          | error exc =>
            left
            simp only [MCPManager.call_tool, hcf, if_neg hen, hp, if_true,
              hok, hc]
            constructor
            · rfl
            · intro e he
              simp only [List.mem_singleton] at he
              subst he
              rfl
      · simp only [MCPManager.call_tool, hcf, if_neg hen, hp, if_false]
        by_cases habs : alookup m.servers server_name = none
        · left
          simp [habs, execCount]
        · right
          simp only [if_neg habs, List.nil_append]
          refine ⟨[], _, rfl, ?_, ?_⟩
          · intro e he
            simp at he
          · intro e he
            exact loop_lockFree beh server_name tool_name retry
              retry_delays m 0 0 e he

/-- C3: the per-server ExecutionSlot is acquired before the first transport
attempt and held for the entire retry sequence, and released on every
exit. Formally: (1) every call_tool trace either makes zero transport
attempts, or is pre-events, acquire, a lock-free body holding the whole
retry sequence (attempts, reconnects, backoff sleeps), and a final
release; (2) every call_tool trace is well locked: wlk scans it from the
unheld state to the unheld state, which forces every transport invocation
window and every backoff sleep to occur while the lock is held and forces
the release on every exit path that acquired; (3) for two call_tool runs
against the same server and any interleaving of their traces that the
lock permits (schedOk: acquire only when free, release only by the
holder), the transport invocation windows never overlap (noOverlap): the
two calls are serialized. -/
theorem c3_mutual_exclusion (ma mb : MCPManager) (beha behb : Behavior)
    (server_name toola toolb : String) (retrya retryb : Bool)
    (zs : List (Bool × Ev))
    (hmerge : IsMerge (ma.call_tool beha server_name toola retrya).1
      (mb.call_tool behb server_name toolb retryb).1 zs)
    (hsched : schedOk zs none = true) :
    ((execCount (ma.call_tool beha server_name toola retrya).1 = 0 ∧
      ∀ e ∈ (ma.call_tool beha server_name toola retrya).1,
        lockFree e = true) ∨
     (∃ pre body, (ma.call_tool beha server_name toola retrya).1 =
        pre ++ Ev.acquire server_name :: body ++ [Ev.release server_name] ∧
      (∀ e ∈ pre, lockFree e = true) ∧
      (∀ e ∈ body, lockFree e = true))) ∧
    wlk (ma.call_tool beha server_name toola retrya).1 false false = true ∧
    wlk (mb.call_tool behb server_name toolb retryb).1 false false = true ∧
    noOverlap zs none = true := by
  refine ⟨call_tool_bracket ma beha server_name toola retrya,
    call_tool_wellLocked ma beha server_name toola retrya,
    call_tool_wellLocked mb behb server_name toolb retryb, ?_⟩
  exact merge_core hmerge false false false false
    (call_tool_wellLocked ma beha server_name toola retrya)
    (call_tool_wellLocked mb behb server_name toolb retryb)
    rfl (fun h => by simp at h) (fun h => by simp at h) hsched

/-- Witness for c3_mutual_exclusion: two successful calls to the same
connected server, scheduled one after the other. -/
theorem c3_mutual_exclusion_witness :
    noOverlap
      [(false, Ev.acquire "jira"), (false, Ev.execStart "jira" "t1"),
       (false, Ev.execEnd "jira" "t1"), (false, Ev.release "jira"),
       (true, Ev.acquire "jira"), (true, Ev.execStart "jira" "t2"),
       (true, Ev.execEnd "jira" "t2"), (true, Ev.release "jira")] none
      = true := by
  have h1 : (connectedManager.call_tool
      { execOut := fun _ => .ok, connectOk := fun _ => true }
      "jira" "t1" true).1 =
    [Ev.acquire "jira", Ev.execStart "jira" "t1",
     Ev.execEnd "jira" "t1", Ev.release "jira"] := rfl
  have h2 : (connectedManager.call_tool
      { execOut := fun _ => .ok, connectOk := fun _ => true }
      "jira" "t2" true).1 =
    [Ev.acquire "jira", Ev.execStart "jira" "t2",
     Ev.execEnd "jira" "t2", Ev.release "jira"] := rfl
  refine (c3_mutual_exclusion connectedManager connectedManager
    { execOut := fun _ => .ok, connectOk := fun _ => true }
    { execOut := fun _ => .ok, connectOk := fun _ => true }
    "jira" "t1" "t2" true true _ ?_ (by decide)).2.2.2
  rw [h1, h2]
  exact .left _ (.left _ (.left _ (.left _ (.right _ (.right _
    (.right _ (.right _ .nil)))))))
